import Mathlib

/-!
Verification of go-fuse-loopback: the inode table and the operation bridge.

A shallow embedding of `inode.go`, `fsutils.go` and `loopbackfs.go`.

* Unsigned machine integers are `Nat`, reduced modulo `2 ^ 64` where the Go code can wrap
  (`atomic.AddUint64`).
* A Go run-time panic is the outcome `Run.panic`; a normal return is `Run.ret`.
* The `sync.Map` holding the inodes is a finite map `InodeID → Option inodeEntry`.
* The backing directory tree is an abstract host state `H`; the Go standard library and
  system calls the code uses are the fields of `Env H`.
* Requests are served one after the other (no interleaving); logging is left out.
-/

namespace Loopbackfs

/-! ## Go values -/

/-- Go `error` values that the handlers compare or return: a bare `syscall.Errno`
(what `fuse.ENOENT`, `fuse.EIO`, `fuse.ENOSYS` and the raw system calls give) or an error
wrapped by the `os` package (`*os.PathError`), which is never equal to a bare errno. -/
inductive GoError where
  | errno (code : Nat)
  | pathError (code : Nat)
  deriving DecidableEq, Repr

/-- Status `fuse.ENOENT` = `syscall.ENOENT`. -/
def ENOENT : GoError := GoError.errno 2

/-- Status `fuse.EIO` = `syscall.EIO`. -/
def EIO : GoError := GoError.errno 5

/-- Status `fuse.ENOSYS` = `syscall.ENOSYS`. The three numbers are those of Linux; the handlers
only compare errors for equality. -/
def ENOSYS : GoError := GoError.errno 38

/-- Outcome of running Go code that can panic. -/
inductive Run (α : Type) where
  | panic : Run α
  | ret (a : α) : Run α
  deriving DecidableEq, Repr

/-- Type `fuseops.InodeID` (a `uint64`). -/
abbrev InodeID := Nat

/-- Constant `fuseops.RootInodeID`. -/
def RootInodeID : InodeID := 1

/-- Number of values of a `uint64`. -/
def uint64Size : Nat := 2 ^ 64

/-! ## `os.FileMode` and `syscall` mode bits -/

/-- Type `os.FileMode` (a `uint32`). -/
abbrev FileMode := Nat

def ModeDir : FileMode := 2 ^ 31
def ModeSymlink : FileMode := 2 ^ 27
def ModeDevice : FileMode := 2 ^ 26
def ModeNamedPipe : FileMode := 2 ^ 25
def ModeSocket : FileMode := 2 ^ 24
def ModeSetuid : FileMode := 2 ^ 23
def ModeSetgid : FileMode := 2 ^ 22
def ModeCharDevice : FileMode := 2 ^ 21
def ModeSticky : FileMode := 2 ^ 20
def ModePerm : FileMode := 0o777

/-- Method `os.FileMode.Perm`. -/
def FileMode.Perm (m : FileMode) : FileMode := m &&& ModePerm

/-- Method `os.FileMode.IsDir`. -/
def FileMode.IsDir (m : FileMode) : Bool := m &&& ModeDir != 0

def S_ISUID : Nat := 0o4000
def S_ISGID : Nat := 0o2000
def S_ISVTX : Nat := 0o1000
def S_IFIFO : Nat := 0o10000
def S_IFCHR : Nat := 0o20000
def S_IFBLK : Nat := 0o60000

/-! ## fsutils.go -/

/-- Function `syscallMode` of fsutils.go: `o` starts at zero and is or-ed with the
permission bits and then with each of the three special bits that is set in `i`. -/
def syscallMode (i : FileMode) : Nat :=
  let o := 0 ||| FileMode.Perm i
  let o := if i &&& ModeSetuid != 0 then o ||| S_ISUID else o
  let o := if i &&& ModeSetgid != 0 then o ||| S_ISGID else o
  let o := if i &&& ModeSticky != 0 then o ||| S_ISVTX else o
  o

/-! ## Host interface -/

/-- A byte of a Go `[]byte`. -/
abbrev Byte := Nat

/-- Type `time.Time`, as nanoseconds since the Unix epoch. -/
abbrev Time := Int

/-- Function `time.Unix`. -/
def timeUnix (sec nsec : Int) : Time := sec * 1000000000 + nsec

/-- The fields of `syscall.Stat_t` the code reads. -/
structure Stat_t where
  Nlink : Nat
  CtimeSec : Int
  CtimeNsec : Int
  Uid : Nat
  Gid : Nat
  Rdev : Nat
  deriving DecidableEq, Repr

/-- Type `os.FileInfo`: `Name()`, `Size()`, `Mode()`, `ModTime()`, and `Sys()` when it is a
`*syscall.Stat_t`. -/
structure FileInfo where
  name : String
  size : Int
  mode : FileMode
  modTime : Time
  sys : Option Stat_t
  deriving DecidableEq, Repr

/-- Type `fuseutil.DirentType`. -/
inductive DirentType where
  | DT_Unknown
  | DT_File
  | DT_Directory
  | DT_Link
  deriving DecidableEq, Repr

/-- Type `fuseutil.Dirent`. -/
structure Dirent where
  Offset : Nat
  Inode : InodeID
  Name : String
  Type_ : DirentType
  deriving DecidableEq, Repr

/-- Type `fuseops.InodeAttributes`. -/
structure InodeAttributes where
  Size : Nat
  Nlink : Nat
  Mode : FileMode
  Atime : Time
  Mtime : Time
  Ctime : Time
  Crtime : Time
  Uid : Nat
  Gid : Nat
  deriving DecidableEq, Repr

/-- Everything the package takes from outside `src/`, over a host state `H`: the Go standard
library and system calls (a mutating call gives its error, if any, and the host afterwards),
the repository's
`pkg/device` helpers `Makedev`, `Major`, `Minor`, and the byte layout `direntBytes` that the
FUSE library's `fuseutil.WriteDirent` gives a directory entry. -/
structure Env (H : Type) where
  readDir : H → String → Except GoError (List FileInfo)
  readFile : H → String → Except GoError (List Byte)
  stat : H → String → Except GoError FileInfo
  now : H → Time
  syscallStat : H → String → Except GoError Stat_t
  join : String → String → String
  unlink : H → String → Option GoError × H
  rename : H → String → String → Option GoError × H
  mkfifo : H → String → Nat → Option GoError × H
  mknod : H → String → Nat → Int → Option GoError × H
  makedev : Nat → Nat → Nat
  major : Nat → Nat
  minor : Nat → Nat
  direntBytes : Dirent → List Byte

/-- Function `fuseutil.WriteDirent` of the FUSE library: writes the entry at the start of `buf`
and returns the number of bytes written, or writes nothing and returns zero when the entry does
not fit. The result is the count and the buffer afterwards. -/
def WriteDirent {H : Type} (env : Env H) (buf : List Byte) (d : Dirent) : Nat × List Byte :=
  let totalLen := (env.direntBytes d).length
  if totalLen > buf.length then (0, buf)
  else (totalLen, env.direntBytes d ++ buf.drop totalLen)

/-- Function `syscallMakeDev` of fsutils.go: the value of `device.Makedev` is computed and
dropped; the function returns `-1` with the error of `syscall.Stat`, or `0` and no error. -/
def syscallMakeDev {H : Type} (env : Env H) (h : H) (path : String) : Int × Option GoError :=
  match env.syscallStat h path with
  | .error err => (-1, some err)
  | .ok stat =>
    let _unused := env.makedev (env.major stat.Rdev) (env.minor stat.Rdev)
    (0, none)

/-! ## inode.go -/

/-- Struct `inodeEntry`, the one implementation of the `Inode` interface. -/
structure inodeEntry where
  id : InodeID
  path : String
  deriving DecidableEq, Repr

/-- The `sync.Map` of the server, whose keys are inode ids and whose values are inodes. -/
abbrev SyncMap := InodeID → Option inodeEntry

/-- Method `sync.Map.Load`. -/
def SyncMap.Load (m : SyncMap) (k : InodeID) : Option inodeEntry := m k

/-- Method `sync.Map.Store`. -/
def SyncMap.Store (m : SyncMap) (k : InodeID) (v : inodeEntry) : SyncMap :=
  fun j => if j = k then some v else m j

/-- Method `sync.Map.LoadOrStore`: the value already stored under `k`, or else `v` after
storing it. -/
def SyncMap.LoadOrStore (m : SyncMap) (k : InodeID) (v : inodeEntry) : inodeEntry × SyncMap :=
  match m k with
  | some e => (e, m)
  | none => (v, SyncMap.Store m k v)

/-- Method `sync.Map.Delete`. -/
def SyncMap.Delete (m : SyncMap) (k : InodeID) : SyncMap :=
  fun j => if j = k then none else m j

/-- The mutable state a request can see: the server's `inodes` and `srcPath`, the package
variable `allocatedInodeId`, and the host. The field `allocatedInodeId` is the value of the
variable before reduction modulo `2 ^ 64`, that is `RootInodeID` plus the number of calls of
`nextInodeID` so far; the `uint64` in memory is `allocatedInodeId % uint64Size`. -/
structure State (H : Type) where
  inodes : SyncMap
  srcPath : String
  allocatedInodeId : Nat
  host : H

/-- Function `nextInodeID`: `atomic.AddUint64(&allocatedInodeId, 1)` adds one to the variable,
wrapping at `2 ^ 64`, and gives the new value, which is the id returned. The result is that id
and the counter afterwards (not reduced, see `State`). -/
def nextInodeID (allocatedInodeId : Nat) : InodeID × Nat :=
  let nextInodeId := (allocatedInodeId + 1) % uint64Size
  (nextInodeId, allocatedInodeId + 1)

/-- Function `getInodeById`: the type assertion `entry.(Inode)` is evaluated before the
function returns, and on the nil interface that `Load` gives for a missing key it panics. -/
def getInodeById (inodes : SyncMap) (parentId : InodeID) : Run (inodeEntry × Bool) :=
  match SyncMap.Load inodes parentId with
  | none => Run.panic
  | some entry => Run.ret (entry, true)

/-- The `for _, entry := range entries` loop of `getInodeByName`. -/
def getInodeByName_loop {H : Type} (env : Env H) (s : State H) (parent : inodeEntry)
    (name : String) : List FileInfo → (Option inodeEntry × Option GoError) × State H
  | [] => ((none, some ENOENT), s)
  | entry :: rest =>
    if entry.name = name then
      let (id, counter) := nextInodeID s.allocatedInodeId
      let inodeEntry : inodeEntry := { id := id, path := env.join parent.path name }
      let (storedEntry, inodes) := SyncMap.LoadOrStore s.inodes inodeEntry.id inodeEntry
      ((some storedEntry, none), { s with inodes := inodes, allocatedInodeId := counter })
    else getInodeByName_loop env s parent name rest

/-- Function `getInodeByName`. -/
def getInodeByName {H : Type} (env : Env H) (s : State H) (parentId : InodeID)
    (name : String) : Run ((Option inodeEntry × Option GoError) × State H) :=
  match getInodeById s.inodes parentId with
  | Run.panic => Run.panic
  | Run.ret (parent, found) =>
    if !found then Run.ret ((none, some ENOENT), s)
    else
      match env.readDir s.host parent.path with
      | .error err => Run.ret ((none, some err), s)
      | .ok entries => Run.ret (getInodeByName_loop env s parent name entries)

/-- Function `getOrCreateInode`. -/
def getOrCreateInode {H : Type} (env : Env H) (s : State H) (parentId : InodeID)
    (name : String) : Run ((Option inodeEntry × Option GoError) × State H) :=
  match getInodeByName env s parentId name with
  | Run.panic => Run.panic
  | Run.ret ((entry, err), s1) =>
    if err ≠ none ∧ err ≠ some ENOENT then Run.ret ((none, err), s1)
    else Run.ret ((entry, none), s1)

/-- Function `NewInode`. -/
def NewInode {H : Type} (s : State H) (path : String) :
    (Option inodeEntry × Option GoError) × State H :=
  let (id, counter) := nextInodeID s.allocatedInodeId
  ((some { id := id, path := path }, none), { s with allocatedInodeId := counter })

/-- Method `inodeEntry.Attributes`; both readings of `time.Now()` are the host clock. -/
def inodeEntry.Attributes {H : Type} (env : Env H) (h : H) (node : inodeEntry) :
    InodeAttributes × Option GoError :=
  match env.stat h node.path with
  | .error err =>
    ({ Size := 0, Nlink := 0, Mode := 0, Atime := 0, Mtime := 0, Ctime := 0, Crtime := 0,
       Uid := 0, Gid := 0 }, some err)
  | .ok nodeInfo =>
    let nodeAttributes : InodeAttributes :=
      { Size := (nodeInfo.size % (uint64Size : Int)).toNat
        Nlink := 1
        Mode := nodeInfo.mode
        Atime := nodeInfo.modTime
        Mtime := nodeInfo.modTime
        Ctime := env.now h
        Crtime := env.now h
        Uid := 0
        Gid := 0 }
    match nodeInfo.sys with
    | some nixInfo =>
      ({ nodeAttributes with
          Nlink := nixInfo.Nlink % 2 ^ 32
          Ctime := timeUnix nixInfo.CtimeSec nixInfo.CtimeNsec
          Uid := nixInfo.Uid
          Gid := nixInfo.Gid }, none)
    | none => (nodeAttributes, none)

/-- The child type chosen in the loop of `ListChildren`. -/
def childType (child : FileInfo) : DirentType :=
  if FileMode.IsDir child.mode then DirentType.DT_Directory
  else if child.mode &&& ModeSymlink != 0 then DirentType.DT_Link
  else DirentType.DT_File

/-- The `for i, child := range children` loop of `ListChildren`; `dirents` holds the entries
`0 .. i-1` already filled in. -/
def ListChildren_loop {H : Type} (env : Env H) (node : inodeEntry) :
    Nat → List FileInfo → State H → List Dirent → Run ((List Dirent × Option GoError) × State H)
  | _, [], s, dirents => Run.ret ((dirents, none), s)
  | i, child :: rest, s, dirents =>
    match getOrCreateInode env s node.id child.name with
    | Run.panic => Run.panic
    | Run.ret ((some childInode, none), s1) =>
      ListChildren_loop env node (i + 1) rest s1
        (dirents ++ [{ Offset := i + 1, Inode := childInode.id, Name := child.name,
                       Type_ := childType child }])
    | Run.ret (_, s1) => Run.ret (([], none), s1)

/-- Method `inodeEntry.ListChildren`; a nil slice is the empty list. -/
def inodeEntry.ListChildren {H : Type} (env : Env H) (s : State H) (node : inodeEntry) :
    Run ((List Dirent × Option GoError) × State H) :=
  match env.readDir s.host node.path with
  | .error err => Run.ret (([], some err), s)
  | .ok children => ListChildren_loop env node 0 children s []

/-- Method `inodeEntry.Contents`. -/
def inodeEntry.Contents {H : Type} (env : Env H) (h : H) (node : inodeEntry) :
    Except GoError (List Byte) :=
  env.readFile h node.path

/-! ## loopbackfs.go: requests -/

/-- The fields of `fuseops.ChildInodeEntry` the code writes. -/
structure ChildInodeEntry where
  Child : InodeID
  Attributes : InodeAttributes
  deriving DecidableEq, Repr

structure StatFSOp where
  BlockSize : Nat
  deriving DecidableEq, Repr

structure LookUpInodeOp where
  Parent : InodeID
  Name : String
  Entry : ChildInodeEntry
  deriving DecidableEq, Repr

structure GetInodeAttributesOp where
  Inode : InodeID
  Attributes : InodeAttributes
  deriving DecidableEq, Repr

structure OpenDirOp where
  Inode : InodeID
  deriving DecidableEq, Repr

structure ReadDirOp where
  Inode : InodeID
  Offset : Nat
  Dst : List Byte
  BytesRead : Nat
  deriving DecidableEq, Repr

structure OpenFileOp where
  Inode : InodeID
  deriving DecidableEq, Repr

structure ReadFileOp where
  Inode : InodeID
  Offset : Int
  Dst : List Byte
  BytesRead : Nat
  deriving DecidableEq, Repr

structure ReleaseDirHandleOp where
  Handle : Nat
  deriving DecidableEq, Repr

structure GetXattrOp where
  Inode : InodeID
  Name : String
  Dst : List Byte
  BytesRead : Nat
  deriving DecidableEq, Repr

structure ListXattrOp where
  Inode : InodeID
  Dst : List Byte
  BytesRead : Nat
  deriving DecidableEq, Repr

structure ForgetInodeOp where
  Inode : InodeID
  N : Nat
  deriving DecidableEq, Repr

structure ReleaseFileHandleOp where
  Handle : Nat
  deriving DecidableEq, Repr

structure ReadSymlinkOp where
  Inode : InodeID
  Target : String
  deriving DecidableEq, Repr

structure FlushFileOp where
  Inode : InodeID
  Handle : Nat
  deriving DecidableEq, Repr

structure MkDirOp where
  Parent : InodeID
  Name : String
  Mode : FileMode
  deriving DecidableEq, Repr

structure MkNodeOp where
  Parent : InodeID
  Name : String
  Mode : FileMode
  deriving DecidableEq, Repr

structure CreateFileOp where
  Parent : InodeID
  Name : String
  Mode : FileMode
  deriving DecidableEq, Repr

structure CreateLinkOp where
  Parent : InodeID
  Name : String
  Target : InodeID
  deriving DecidableEq, Repr

structure CreateSymlinkOp where
  Parent : InodeID
  Name : String
  Target : String
  deriving DecidableEq, Repr

structure SetInodeAttributesOp where
  Inode : InodeID
  Size : Option Nat
  Mode : Option FileMode
  deriving DecidableEq, Repr

structure RenameOp where
  OldParent : InodeID
  OldName : String
  NewParent : InodeID
  NewName : String
  deriving DecidableEq, Repr

structure WriteFileOp where
  Inode : InodeID
  Offset : Int
  Data : List Byte
  deriving DecidableEq, Repr

structure SetXattrOp where
  Inode : InodeID
  Name : String
  Value : List Byte
  Flags : Nat
  deriving DecidableEq, Repr

structure SyncFileOp where
  Inode : InodeID
  Handle : Nat
  deriving DecidableEq, Repr

structure RmDirOp where
  Parent : InodeID
  Name : String
  deriving DecidableEq, Repr

structure UnlinkOp where
  Parent : InodeID
  Name : String
  deriving DecidableEq, Repr

structure RemoveXattrOp where
  Inode : InodeID
  Name : String
  deriving DecidableEq, Repr

structure FallocateOp where
  Inode : InodeID
  Offset : Nat
  Length : Nat
  Mode : Nat
  deriving DecidableEq, Repr

/-- What a handler leaves behind when it returns: its `error`, the request struct it was
given a pointer to, and the state. -/
abbrev Reply (H : Type) (Op : Type) := Run ((Option GoError × Op) × State H)

/-! ## loopbackfs.go: handlers -/

/-- The state that `NewFileSystemServer srcPath` builds, with the package variable
`allocatedInodeId` at its initial value, over the host `h`. -/
def NewFileSystemServer {H : Type} (h : H) (srcPath : String) : State H :=
  let inodes : SyncMap := fun _ => none
  let root : inodeEntry := { id := RootInodeID, path := srcPath }
  { inodes := SyncMap.Store inodes root.id root
    srcPath := srcPath
    allocatedInodeId := RootInodeID
    host := h }

def StatFS {H : Type} (s : State H) (op : StatFSOp) : Reply H StatFSOp :=
  Run.ret ((none, op), s)

def LookUpInode {H : Type} (env : Env H) (s : State H) (op : LookUpInodeOp) :
    Reply H LookUpInodeOp :=
  match getOrCreateInode env s op.Parent op.Name with
  | Run.panic => Run.panic
  | Run.ret ((entry, err), s1) =>
    if err ≠ none then Run.ret ((some EIO, op), s1)
    else
      match entry with
      | none => Run.ret ((some ENOENT, op), s1)
      | some entry =>
        let op1 : LookUpInodeOp := { op with Entry := { op.Entry with Child := entry.id } }
        match inodeEntry.Attributes env s1.host entry with
        | (_, some _) => Run.ret ((some EIO, op1), s1)
        | (attributes, none) =>
          Run.ret ((none, { op1 with Entry := { op1.Entry with Attributes := attributes } }), s1)

def GetInodeAttributes {H : Type} (env : Env H) (s : State H) (op : GetInodeAttributesOp) :
    Reply H GetInodeAttributesOp :=
  match SyncMap.Load s.inodes op.Inode with
  | none => Run.ret ((some ENOENT, op), s)
  | some entry =>
    match inodeEntry.Attributes env s.host entry with
    | (_, some _) => Run.ret ((some EIO, op), s)
    | (attributes, none) => Run.ret ((none, { op with Attributes := attributes }), s)

def OpenDir {H : Type} (s : State H) (op : OpenDirOp) : Reply H OpenDirOp :=
  Run.ret ((none, op), s)

/-- The `for _, child := range children` loop of `ReadDir`; slicing `op.Dst[op.BytesRead:]`
panics when `op.BytesRead` is beyond the buffer. -/
def ReadDir_loop {H : Type} (env : Env H) : List Dirent → ReadDirOp → Run ReadDirOp
  | [], op => Run.ret op
  | child :: rest, op =>
    if op.BytesRead > op.Dst.length then Run.panic
    else
      let (bytesWritten, written) := WriteDirent env (op.Dst.drop op.BytesRead) child
      if bytesWritten = 0 then Run.ret op
      else
        ReadDir_loop env rest
          { op with Dst := op.Dst.take op.BytesRead ++ written
                    BytesRead := op.BytesRead + bytesWritten }

def ReadDir {H : Type} (env : Env H) (s : State H) (op : ReadDirOp) : Reply H ReadDirOp :=
  match SyncMap.Load s.inodes op.Inode with
  | none => Run.ret ((some ENOENT, op), s)
  | some entry =>
    match inodeEntry.ListChildren env s entry with
    | Run.panic => Run.panic
    | Run.ret ((children, err), s1) =>
      if err ≠ none then Run.ret ((some EIO, op), s1)
      else if op.Offset > children.length then Run.ret ((some EIO, op), s1)
      else
        match ReadDir_loop env (children.drop op.Offset) op with
        | Run.panic => Run.panic
        | Run.ret op1 => Run.ret ((none, op1), s1)

def OpenFile {H : Type} (s : State H) (op : OpenFileOp) : Reply H OpenFileOp :=
  Run.ret ((none, op), s)

/-- Go builtin `copy(dst, src)` on byte slices: the number of bytes copied and `dst`
afterwards. -/
def goCopy (dst src : List Byte) : Nat × List Byte :=
  let n := min dst.length src.length
  (n, src.take n ++ dst.drop n)

/-- Handler `ReadFile`; slicing `contents[op.Offset:]` panics on a negative offset. -/
def ReadFile {H : Type} (env : Env H) (s : State H) (op : ReadFileOp) : Reply H ReadFileOp :=
  match SyncMap.Load s.inodes op.Inode with
  | none => Run.ret ((some ENOENT, op), s)
  | some entry =>
    match inodeEntry.Contents env s.host entry with
    | .error _ => Run.ret ((some EIO, op), s)
    | .ok contents =>
      if op.Offset > (contents.length : Int) then Run.ret ((some EIO, op), s)
      else if op.Offset < 0 then Run.panic
      else
        let contents := contents.drop op.Offset.toNat
        let (n, dst) := goCopy op.Dst contents
        Run.ret ((none, { op with Dst := dst, BytesRead := n }), s)

def ReleaseDirHandle {H : Type} (s : State H) (op : ReleaseDirHandleOp) :
    Reply H ReleaseDirHandleOp :=
  Run.ret ((none, op), s)

def GetXattr {H : Type} (s : State H) (op : GetXattrOp) : Reply H GetXattrOp :=
  Run.ret ((none, op), s)

def ListXattr {H : Type} (s : State H) (op : ListXattrOp) : Reply H ListXattrOp :=
  Run.ret ((none, op), s)

def ForgetInode {H : Type} (s : State H) (op : ForgetInodeOp) : Reply H ForgetInodeOp :=
  Run.ret ((none, op), s)

def ReleaseFileHandle {H : Type} (s : State H) (op : ReleaseFileHandleOp) :
    Reply H ReleaseFileHandleOp :=
  Run.ret ((none, op), s)

def ReadSymlink {H : Type} (s : State H) (op : ReadSymlinkOp) : Reply H ReadSymlinkOp :=
  Run.ret ((some ENOSYS, op), s)

def FlushFile {H : Type} (s : State H) (op : FlushFileOp) : Reply H FlushFileOp :=
  Run.ret ((none, op), s)

def MkDir {H : Type} (s : State H) (op : MkDirOp) : Reply H MkDirOp :=
  Run.ret ((some ENOSYS, op), s)

/-- Handler `MkNode`: the `switch` takes the first case that matches; an error of
`syscall.Mkfifo` or `syscall.Mknod` is logged and dropped. -/
def MkNode {H : Type} (env : Env H) (s : State H) (op : MkNodeOp) : Reply H MkNodeOp :=
  match getInodeById s.inodes op.Parent with
  | Run.panic => Run.panic
  | Run.ret (parentInode, found) =>
    if !found then Run.ret ((some ENOENT, op), s)
    else
      let newEntryPath := env.join parentInode.path op.Name
      let mode := syscallMode op.Mode
      if op.Mode &&& ModeNamedPipe = ModeNamedPipe then
        match env.mkfifo s.host newEntryPath mode with
        | (_, h) => Run.ret ((none, op), { s with host := h })
      else if op.Mode &&& ModeSocket = ModeSocket then Run.ret ((none, op), s)
      else if op.Mode &&& ModeDevice = ModeDevice then
        match syscallMakeDev env s.host parentInode.path with
        | (_, some _) => Run.ret ((some EIO, op), s)
        | (dev, none) =>
          let mode :=
            if op.Mode &&& ModeCharDevice = ModeCharDevice then mode ||| S_IFCHR
            else mode ||| S_IFBLK
          match env.mknod s.host newEntryPath mode dev with
          | (_, h) => Run.ret ((none, op), { s with host := h })
      else Run.ret ((some ENOSYS, op), s)

def CreateFile {H : Type} (s : State H) (op : CreateFileOp) : Reply H CreateFileOp :=
  Run.ret ((some ENOSYS, op), s)

def CreateLink {H : Type} (s : State H) (op : CreateLinkOp) : Reply H CreateLinkOp :=
  Run.ret ((some ENOSYS, op), s)

def CreateSymlink {H : Type} (s : State H) (op : CreateSymlinkOp) : Reply H CreateSymlinkOp :=
  Run.ret ((some ENOSYS, op), s)

def SetInodeAttributes {H : Type} (s : State H) (op : SetInodeAttributesOp) :
    Reply H SetInodeAttributesOp :=
  Run.ret ((some ENOSYS, op), s)

def Rename {H : Type} (env : Env H) (s : State H) (op : RenameOp) : Reply H RenameOp :=
  match getInodeById s.inodes op.OldParent with
  | Run.panic => Run.panic
  | Run.ret (oldParent, found) =>
    if !found then Run.ret ((some ENOENT, op), s)
    else
      match getInodeById s.inodes op.NewParent with
      | Run.panic => Run.panic
      | Run.ret (newParent, found) =>
        if !found then Run.ret ((some ENOENT, op), s)
        else
          let p1 := env.join oldParent.path op.OldName
          let p2 := env.join newParent.path op.NewName
          match env.rename s.host p1 p2 with
          | (err, h) => Run.ret ((err, op), { s with host := h })

def WriteFile {H : Type} (s : State H) (op : WriteFileOp) : Reply H WriteFileOp :=
  Run.ret ((some ENOSYS, op), s)

def SetXattr {H : Type} (s : State H) (op : SetXattrOp) : Reply H SetXattrOp :=
  Run.ret ((some ENOSYS, op), s)

def SyncFile {H : Type} (s : State H) (op : SyncFileOp) : Reply H SyncFileOp :=
  Run.ret ((some ENOSYS, op), s)

def RmDir {H : Type} (s : State H) (op : RmDirOp) : Reply H RmDirOp :=
  Run.ret ((some ENOSYS, op), s)

/-- Handler `Unlink`; calling `entry.Path()` on a nil `Inode` would panic. -/
def Unlink {H : Type} (env : Env H) (s : State H) (op : UnlinkOp) : Reply H UnlinkOp :=
  match getInodeByName env s op.Parent op.Name with
  | Run.panic => Run.panic
  | Run.ret ((_, some err), s1) => Run.ret ((some err, op), s1)
  | Run.ret ((none, none), _) => Run.panic
  | Run.ret ((some entry, none), s1) =>
    match env.unlink s1.host entry.path with
    | (some err, h) => Run.ret ((some err, op), { s1 with host := h })
    | (none, h) =>
      Run.ret ((none, op), { s1 with inodes := SyncMap.Delete s1.inodes entry.id, host := h })

def RemoveXattr {H : Type} (s : State H) (op : RemoveXattrOp) : Reply H RemoveXattrOp :=
  Run.ret ((some ENOSYS, op), s)

def Fallocate {H : Type} (s : State H) (op : FallocateOp) : Reply H FallocateOp :=
  Run.ret ((some ENOSYS, op), s)

/-! ## Serving requests -/

/-- A request of the FUSE library for one of the handlers of `FileSystemServer`. -/
inductive Request where
  | statFS (op : StatFSOp)
  | lookUpInode (op : LookUpInodeOp)
  | getInodeAttributes (op : GetInodeAttributesOp)
  | openDir (op : OpenDirOp)
  | readDir (op : ReadDirOp)
  | openFile (op : OpenFileOp)
  | readFile (op : ReadFileOp)
  | releaseDirHandle (op : ReleaseDirHandleOp)
  | getXattr (op : GetXattrOp)
  | listXattr (op : ListXattrOp)
  | forgetInode (op : ForgetInodeOp)
  | releaseFileHandle (op : ReleaseFileHandleOp)
  | readSymlink (op : ReadSymlinkOp)
  | flushFile (op : FlushFileOp)
  | mkDir (op : MkDirOp)
  | mkNode (op : MkNodeOp)
  | createFile (op : CreateFileOp)
  | createLink (op : CreateLinkOp)
  | createSymlink (op : CreateSymlinkOp)
  | setInodeAttributes (op : SetInodeAttributesOp)
  | rename (op : RenameOp)
  | writeFile (op : WriteFileOp)
  | setXattr (op : SetXattrOp)
  | syncFile (op : SyncFileOp)
  | rmDir (op : RmDirOp)
  | unlink (op : UnlinkOp)
  | removeXattr (op : RemoveXattrOp)
  | fallocate (op : FallocateOp)

/-- The error of a reply. -/
def Reply.status {H Op : Type} : Reply H Op → Run (Option GoError)
  | Run.panic => Run.panic
  | Run.ret ((err, _), _) => Run.ret err

/-- The error and the state of a reply. -/
def Reply.outcome {H Op : Type} : Reply H Op → Run (Option GoError × State H)
  | Run.panic => Run.panic
  | Run.ret ((err, _), s) => Run.ret (err, s)

/-- One request handed to its handler, as the FUSE library's server does for each request it
reads; the result is the handler's error and the state afterwards. -/
def serve {H : Type} (env : Env H) (s : State H) : Request → Run (Option GoError × State H)
  | .statFS op => Reply.outcome (StatFS s op)
  | .lookUpInode op => Reply.outcome (LookUpInode env s op)
  | .getInodeAttributes op => Reply.outcome (GetInodeAttributes env s op)
  | .openDir op => Reply.outcome (OpenDir s op)
  | .readDir op => Reply.outcome (ReadDir env s op)
  | .openFile op => Reply.outcome (OpenFile s op)
  | .readFile op => Reply.outcome (ReadFile env s op)
  | .releaseDirHandle op => Reply.outcome (ReleaseDirHandle s op)
  | .getXattr op => Reply.outcome (GetXattr s op)
  | .listXattr op => Reply.outcome (ListXattr s op)
  | .forgetInode op => Reply.outcome (ForgetInode s op)
  | .releaseFileHandle op => Reply.outcome (ReleaseFileHandle s op)
  | .readSymlink op => Reply.outcome (ReadSymlink s op)
  | .flushFile op => Reply.outcome (FlushFile s op)
  | .mkDir op => Reply.outcome (MkDir s op)
  | .mkNode op => Reply.outcome (MkNode env s op)
  | .createFile op => Reply.outcome (CreateFile s op)
  | .createLink op => Reply.outcome (CreateLink s op)
  | .createSymlink op => Reply.outcome (CreateSymlink s op)
  | .setInodeAttributes op => Reply.outcome (SetInodeAttributes s op)
  | .rename op => Reply.outcome (Rename env s op)
  | .writeFile op => Reply.outcome (WriteFile s op)
  | .setXattr op => Reply.outcome (SetXattr s op)
  | .syncFile op => Reply.outcome (SyncFile s op)
  | .rmDir op => Reply.outcome (RmDir s op)
  | .unlink op => Reply.outcome (Unlink env s op)
  | .removeXattr op => Reply.outcome (RemoveXattr s op)
  | .fallocate op => Reply.outcome (Fallocate s op)

/-- A sequence of requests served one after the other; a panic ends the process. -/
def serveAll {H : Type} (env : Env H) : State H → List Request → Run (State H)
  | s, [] => Run.ret s
  | s, req :: rest =>
    match serve env s req with
    | Run.panic => Run.panic
    | Run.ret (_, s1) => serveAll env s1 rest

/-- The ids returned by `k` calls of `nextInodeID` one after the other, the first of them on
the counter value `c`. -/
def nextInodeIDs : Nat → Nat → List InodeID
  | _, 0 => []
  | c, k + 1 => (nextInodeID c).1 :: nextInodeIDs (nextInodeID c).2 k

/-! ## A concrete host

One directory `/src` and the nodes directly in it; used to run the handlers on inputs. -/

/-- The nodes of the directory `/src`, in the order a listing gives them, and the arguments
of every call of `mknod` so far. -/
structure DemoHost where
  files : List FileInfo
  mknodCalls : List (String × Nat × Int)
  deriving DecidableEq, Repr

/-- The part of a path before its last slash. -/
def demoDir (p : String) : String :=
  String.mk ((p.data.reverse.dropWhile (fun c => c != '/')).drop 1).reverse

/-- The part of a path after its last slash. -/
def demoBase (p : String) : String :=
  String.mk (p.data.reverse.takeWhile (fun c => c != '/')).reverse

/-- The node of `/src` with the path `p`. -/
def demoFind (h : DemoHost) (p : String) : Option FileInfo :=
  if demoDir p = "/src" then h.files.find? (fun f => f.name == demoBase p) else none

/-- What `stat` reports for the directory `/src` itself. -/
def demoSrcInfo : FileInfo :=
  { name := "src", size := 4096, mode := ModeDir ||| 0o755, modTime := 1700000000000000000,
    sys := some { Nlink := 2, CtimeSec := 1700000000, CtimeNsec := 0, Uid := 1000, Gid := 1000,
                  Rdev := 0 } }

/-- A regular file of `size` bytes. -/
def demoFile (name : String) (size : Nat) : FileInfo :=
  { name := name, size := size, mode := 0o644, modTime := 1700000000000000000,
    sys := some { Nlink := 1, CtimeSec := 1700000000, CtimeNsec := 0, Uid := 1000, Gid := 1000,
                  Rdev := 0 } }

/-- A block device node with device number `rdev`. -/
def demoBlockDev (name : String) (rdev : Nat) : FileInfo :=
  { name := name, size := 0, mode := ModeDevice ||| 0o660, modTime := 1700000000000000000,
    sys := some { Nlink := 1, CtimeSec := 1700000000, CtimeNsec := 0, Uid := 0, Gid := 6,
                  Rdev := rdev } }

/-- What `stat` reports for the path `p`. -/
def demoStat (h : DemoHost) (p : String) : Except GoError FileInfo :=
  if p = "/src" then .ok demoSrcInfo
  else
    match demoFind h p with
    | some f => .ok f
    | none => .error (GoError.pathError 2)

/-- Creation of a node at `p`: it fails with `ENOTDIR`, `EEXIST` or `ENOENT` as the host
would, and otherwise adds the node to `/src`. -/
def demoCreate (h : DemoHost) (p : String) (mode : FileMode) (rdev : Nat) :
    Option GoError × DemoHost :=
  if demoDir p = "/src" then
    match demoFind h p with
    | some _ => (some (GoError.errno 17), h)
    | none =>
      (none, { h with files := h.files ++ [{ demoBlockDev (demoBase p) rdev with mode := mode }] })
  else
    match demoFind h (demoDir p) with
    | some _ => (some (GoError.errno 20), h)
    | none => (some (GoError.errno 2), h)

/-- The `k` low bytes of `n`, lowest first. -/
def leBytes : Nat → Nat → List Byte
  | 0, _ => []
  | k + 1, n => n % 256 :: leBytes k (n / 256)

/-- The number `fuseutil.WriteDirent` writes for a directory entry type. -/
def DirentType.code : DirentType → Nat
  | .DT_Unknown => 0
  | .DT_File => 8
  | .DT_Directory => 4
  | .DT_Link => 10

/-- The `fuse_dirent` layout of a little-endian host: inode and offset in 8 bytes each, name
length and type in 4 bytes each, the name, and zero padding to a multiple of 8 bytes. -/
def demoDirentBytes (d : Dirent) : List Byte :=
  let name : List Byte := (d.Name.data.flatMap String.utf8EncodeChar).map UInt8.toNat
  let padLen := if name.length % 8 != 0 then 8 - name.length % 8 else 0
  leBytes 8 d.Inode ++ leBytes 8 d.Offset ++ leBytes 4 name.length ++ leBytes 4 d.Type_.code
    ++ name ++ List.replicate padLen 0

/-- The node `g`, under the name `new` when its name is `old`. -/
def demoRenamed (old new : String) (g : FileInfo) : FileInfo :=
  if g.name == old then { g with name := new } else g

/-- The concrete environment over `DemoHost`; device numbers are encoded as on Linux. -/
def demoEnv : Env DemoHost where
  readDir h p :=
    if p = "/src" then .ok h.files
    else
      match demoFind h p with
      | some _ => .error (GoError.pathError 20)
      | none => .error (GoError.pathError 2)
  readFile h p :=
    match demoFind h p with
    | some f => .ok (List.range f.size.toNat)
    | none => .error (GoError.pathError 2)
  stat := demoStat
  now _ := 1700000000000000000
  syscallStat h p :=
    match demoStat h p with
    | .ok f =>
      match f.sys with
      | some st => .ok st
      | none => .error (GoError.errno 2)
    | .error _ => .error (GoError.errno 2)
  join dir name := dir ++ "/" ++ name
  unlink h p :=
    match demoFind h p with
    | some f => (none, { h with files := h.files.filter (fun g => g.name != f.name) })
    | none => (some (GoError.errno 2), h)
  rename h p1 p2 :=
    match demoFind h p1 with
    | some f =>
      if demoDir p2 = "/src" then
        (none, { h with files := h.files.map (demoRenamed f.name (demoBase p2)) })
      else (some (GoError.errno 2), h)
    | none => (some (GoError.errno 2), h)
  mkfifo h p mode := demoCreate h p (ModeNamedPipe ||| mode % 512) 0
  mknod h p mode dev :=
    let h1 : DemoHost := { h with mknodCalls := h.mknodCalls ++ [(p, mode, dev)] }
    demoCreate h1 p (ModeDevice ||| mode % 512) dev.toNat
  makedev ma mi :=
    ((ma &&& 0xfffff000) <<< 32) ||| ((ma &&& 0xfff) <<< 8) ||| ((mi &&& 0xffffff00) <<< 12)
      ||| (mi &&& 0xff)
  major dev := ((dev >>> 8) &&& 0xfff) ||| ((dev >>> 32) &&& 0xfffff000)
  minor dev := (dev &&& 0xff) ||| ((dev >>> 12) &&& 0xffffff00)
  direntBytes := demoDirentBytes

/-- The directory `/src` holding the regular files `a` (3 bytes) and `b` (5 bytes) and the
block device `sda` with device number `0x800`. -/
def demoHost : DemoHost :=
  { files := [demoFile "a" 3, demoFile "b" 5, demoBlockDev "sda" 0x800], mknodCalls := [] }

/-- The server that `NewFileSystemServer` builds over `/src`. -/
def demoState : State DemoHost := NewFileSystemServer demoHost "/src"

/-- The state `demoState` after one listing of the root directory: the three children have the
ids 2, 3 and 4. -/
def demoStateListed : State DemoHost :=
  { inodes :=
      SyncMap.Store
        (SyncMap.Store
          (SyncMap.Store demoState.inodes 2 { id := 2, path := "/src/a" })
          3 { id := 3, path := "/src/b" })
        4 { id := 4, path := "/src/sda" }
    srcPath := "/src"
    allocatedInodeId := 4
    host := demoHost }

/-- The entries of that listing. -/
def demoListing : List Dirent :=
  [{ Offset := 1, Inode := 2, Name := "a", Type_ := DirentType.DT_File },
   { Offset := 2, Inode := 3, Name := "b", Type_ := DirentType.DT_File },
   { Offset := 3, Inode := 4, Name := "sda", Type_ := DirentType.DT_File }]

/-- An attribute record with every field zero, as in a request that has not been answered. -/
def noAttributes : InodeAttributes :=
  { Size := 0, Nlink := 0, Mode := 0, Atime := 0, Mtime := 0, Ctime := 0, Crtime := 0,
    Uid := 0, Gid := 0 }

/-- A read of the file with id 3 at offset 2 into a buffer of 4 bytes. -/
def demoReadFileOp : ReadFileOp :=
  { Inode := 3, Offset := 2, Dst := [9, 9, 9, 9], BytesRead := 0 }

/-- A listing of the root directory from offset 1 into a buffer of 40 bytes. -/
def demoReadDirOp : ReadDirOp :=
  { Inode := RootInodeID, Offset := 1, Dst := List.replicate 40 9, BytesRead := 0 }

/-- A lookup of `a`, its removal, and a listing of the root directory. -/
def demoRequests : List Request :=
  [Request.lookUpInode { Parent := RootInodeID, Name := "a", Entry := ⟨0, noAttributes⟩ },
   Request.unlink { Parent := RootInodeID, Name := "a" },
   Request.readDir { Inode := RootInodeID, Offset := 0, Dst := List.replicate 64 0,
                     BytesRead := 0 }]

/-- The state after `demoRequests` have been served from `demoState`. -/
def demoStateServed : State DemoHost :=
  match serveAll demoEnv (NewFileSystemServer demoHost "/src") demoRequests with
  | Run.ret s => s
  | Run.panic => demoState

/-! ## Specification vocabulary -/

/-- The bytes that `fuseutil.WriteDirent` writes for the entries of `l`, one after the other. -/
def direntsBytes {H : Type} (env : Env H) (l : List Dirent) : List Byte :=
  (l.map env.direntBytes).flatten

/-- The entries `ListChildren` is to produce for the children `rest`, the first of them at index
`i` of the listing, when ids are minted in order from the counter value `c`. -/
def expectedDirents : Nat → Nat → List FileInfo → List Dirent
  | _, _, [] => []
  | i, c, child :: rest =>
    { Offset := i + 1, Inode := c + 1, Name := child.name, Type_ := childType child }
      :: expectedDirents (i + 1) (c + 1) rest

/-- The invariant of the inode table: the root entry is stored under `RootInodeID`, every
entry is stored under its own id, and every key lies between `RootInodeID` and the counter. -/
def TableInv {H : Type} (s : State H) : Prop :=
  s.inodes RootInodeID = some { id := RootInodeID, path := s.srcPath } ∧
  ∀ (k : Nat) (e : inodeEntry), s.inodes k = some e →
    e.id = k ∧ RootInodeID ≤ k ∧ k ≤ s.allocatedInodeId

/-- The handler left the table, the counter and `srcPath` as they were. -/
def SameTable {H : Type} (s s1 : State H) : Prop :=
  s1.inodes = s.inodes ∧ s1.srcPath = s.srcPath ∧ s1.allocatedInodeId = s.allocatedInodeId

/-- The state after a resolution that minted an id. -/
def minted {H : Type} (env : Env H) (s : State H) (parent : inodeEntry) (name : String) :
    State H :=
  { s with
      inodes := (SyncMap.LoadOrStore s.inodes ((s.allocatedInodeId + 1) % uint64Size)
          { id := (s.allocatedInodeId + 1) % uint64Size, path := env.join parent.path name }).2
      allocatedInodeId := s.allocatedInodeId + 1 }

/-! ## Mode translation -/

/-- Masking with a single bit is non-zero exactly when that bit is set. -/
theorem and_two_pow_ne_zero_iff (m k : Nat) : (m &&& 2 ^ k != 0) = m.testBit k := by
  rw [Nat.and_two_pow]
  cases h : m.testBit k <;> simp

/-- The value of `syscallMode` in terms of the bits 23, 22 and 20 of the mode. -/
theorem syscallMode_eq (m : FileMode) :
    syscallMode m =
      ((m &&& 0o777) ||| (if m.testBit 23 then 0o4000 else 0)
        ||| (if m.testBit 22 then 0o2000 else 0) ||| (if m.testBit 20 then 0o1000 else 0)) := by
  simp only [syscallMode, FileMode.Perm, ModePerm, ModeSetuid, ModeSetgid, ModeSticky,
    S_ISUID, S_ISGID, S_ISVTX, and_two_pow_ne_zero_iff, Nat.zero_or]
  cases m.testBit 23 <;> cases m.testBit 22 <;> cases m.testBit 20 <;> simp

/-- The value of `syscallMode` fits in twelve bits. -/
theorem syscallMode_lt (m : FileMode) : syscallMode m < 0o10000 := by
  rw [syscallMode_eq]
  have h1 : m &&& 0o777 < 2 ^ 12 := lt_of_le_of_lt Nat.and_le_right (by norm_num)
  have h2 : (if m.testBit 23 then 0o4000 else 0) < 2 ^ 12 := by split <;> norm_num
  have h3 : (if m.testBit 22 then 0o2000 else 0) < 2 ^ 12 := by split <;> norm_num
  have h4 : (if m.testBit 20 then 0o1000 else 0) < 2 ^ 12 := by split <;> norm_num
  exact Nat.or_lt_two_pow (Nat.or_lt_two_pow (Nat.or_lt_two_pow h1 h2) h3) h4

/-- Only the nine permission bits and the three special bits of the mode are read. -/
theorem syscallMode_mask (m : FileMode) :
    syscallMode (m &&& (0o777 ||| ModeSetuid ||| ModeSetgid ||| ModeSticky)) = syscallMode m := by
  rw [syscallMode_eq, syscallMode_eq]
  have e : (0o777 ||| ModeSetuid ||| ModeSetgid ||| ModeSticky) &&& 0o777 = 0o777 := by decide
  rw [Nat.and_assoc, e]
  simp only [Nat.testBit_and]
  have b1 : (0o777 ||| ModeSetuid ||| ModeSetgid ||| ModeSticky).testBit 23 = true := by decide
  have b2 : (0o777 ||| ModeSetuid ||| ModeSetgid ||| ModeSticky).testBit 22 = true := by decide
  have b3 : (0o777 ||| ModeSetuid ||| ModeSetgid ||| ModeSticky).testBit 20 = true := by decide
  simp [b1, b2, b3]

/-! ## Reading a directory -/

theorem direntsBytes_cons {H : Type} (env : Env H) (d : Dirent) (l : List Dirent) :
    direntsBytes env (d :: l) = env.direntBytes d ++ direntsBytes env l := by
  simp [direntsBytes]

theorem direntsBytes_length {H : Type} (env : Env H) (l : List Dirent) :
    (direntsBytes env l).length = (l.map (fun d => (env.direntBytes d).length)).sum := by
  induction l with
  | nil => simp [direntsBytes]
  | cons d l ih => simp [direntsBytes_cons, ih]

/-- The loop of `ReadDir` writes the serializations of the first `k` entries after the bytes
already read and stops at the first entry that does not fit. -/
theorem ReadDir_loop_spec {H : Type} (env : Env H)
    (hser : ∀ d, 0 < (env.direntBytes d).length) :
    ∀ (l : List Dirent) (op : ReadDirOp), op.BytesRead ≤ op.Dst.length →
      ∃ k, k ≤ l.length ∧
        op.BytesRead + (direntsBytes env (l.take k)).length ≤ op.Dst.length ∧
        ReadDir_loop env l op =
          Run.ret { op with
            Dst := op.Dst.take op.BytesRead ++ direntsBytes env (l.take k)
                    ++ op.Dst.drop (op.BytesRead + (direntsBytes env (l.take k)).length)
            BytesRead := op.BytesRead + (direntsBytes env (l.take k)).length } ∧
        (∀ d, l[k]? = some d →
          op.Dst.length - (op.BytesRead + (direntsBytes env (l.take k)).length)
            < (env.direntBytes d).length) := by
  intro l
  induction l with
  | nil =>
    intro op hb
    refine ⟨0, le_refl _, by simpa [direntsBytes] using hb, ?_, by simp⟩
    simp [ReadDir_loop, direntsBytes]
  | cons child rest ih =>
    intro op hb
    have hnb : ¬ (op.BytesRead > op.Dst.length) := by omega
    by_cases hfit : (env.direntBytes child).length > op.Dst.length - op.BytesRead
    · refine ⟨0, Nat.zero_le _, by simpa [direntsBytes] using hb, ?_, ?_⟩
      · simp [ReadDir_loop, hnb, WriteDirent, hfit, direntsBytes]
      · intro d hd
        simp at hd
        subst hd
        simpa [direntsBytes] using hfit
    · have hpos := hser child
      have hne : (env.direntBytes child).length ≠ 0 := by omega
      set n := (env.direntBytes child).length with hn
      have hb' : op.BytesRead + n ≤ op.Dst.length := by omega
      obtain ⟨k, hk, hle, hrun, hstop⟩ := ih
        { op with Dst := op.Dst.take op.BytesRead ++ (env.direntBytes child ++ (op.Dst.drop op.BytesRead).drop n)
                  BytesRead := op.BytesRead + n } (by (simp; omega))
      simp only at hle hrun hstop
      have hlen : (op.Dst.take op.BytesRead ++ (env.direntBytes child ++ (op.Dst.drop op.BytesRead).drop n)).length = op.Dst.length := by
        (simp; omega)
      rw [hlen] at hle hstop
      refine ⟨k + 1, by simpa using hk, ?_, ?_, ?_⟩
      · simp only [List.take_succ_cons, direntsBytes_cons, List.length_append]
        omega
      · simp only [ReadDir_loop, hnb, WriteDirent, List.length_drop, hfit, if_false, ← hn, hne]
        rw [hrun]
        simp only [List.take_succ_cons, direntsBytes_cons, List.length_append, ← hn]
        congr 2
        · have ht : List.take (op.BytesRead + n) (op.Dst.take op.BytesRead ++ (env.direntBytes child ++ (op.Dst.drop op.BytesRead).drop n)) = op.Dst.take op.BytesRead ++ env.direntBytes child := by
            rw [← List.append_assoc]
            rw [List.take_append_of_le_length (by (simp; omega))]
            rw [List.take_of_length_le (by simp)]
          have hd : List.drop (op.BytesRead + n + (direntsBytes env (List.take k rest)).length) (op.Dst.take op.BytesRead ++ (env.direntBytes child ++ (op.Dst.drop op.BytesRead).drop n)) = op.Dst.drop (op.BytesRead + (n + (direntsBytes env (List.take k rest)).length)) := by
            have hA : (op.Dst.take op.BytesRead ++ env.direntBytes child).length = op.BytesRead + n := by
              (simp; omega)
            rw [← List.append_assoc, ← hA, List.drop_append]
            simp only [List.drop_drop]
            congr 1
            omega
          rw [ht, hd]
          simp [List.append_assoc]
        · omega
      · intro d hd
        simp only [List.getElem?_cons_succ] at hd
        have := hstop d hd
        simp only [List.take_succ_cons, direntsBytes_cons, List.length_append, ← hn]
        omega

/-! ## Listing the children of a directory -/

theorem expectedDirents_length (i c : Nat) (l : List FileInfo) :
    (expectedDirents i c l).length = l.length := by
  induction l generalizing i c with
  | nil => rfl
  | cons a l ih => simp [expectedDirents, ih]

theorem expectedDirents_getElem? (i c : Nat) (l : List FileInfo) (j : Nat) :
    (expectedDirents i c l)[j]? =
      (l[j]?).map (fun child =>
        { Offset := i + j + 1, Inode := c + j + 1, Name := child.name, Type_ := childType child }) := by
  induction l generalizing i c j with
  | nil => simp [expectedDirents]
  | cons a l ih =>
    cases j with
    | zero => simp [expectedDirents]
    | succ j =>
      simp only [expectedDirents, List.getElem?_cons_succ, ih]
      cases l[j]? with
      | none => rfl
      | some child =>
        simp only [Option.map_some', Option.some.injEq, Dirent.mk.injEq, and_true]
        unfold InodeID
        constructor <;> omega

/-- When the name is in the listing, the loop of `getInodeByName` mints an id and stores the
new descriptor under it with `LoadOrStore`. -/
theorem getInodeByName_loop_found {H : Type} (env : Env H) (s : State H) (parent : inodeEntry)
    (name : String) (entries : List FileInfo) (h : ∃ f ∈ entries, f.name = name) :
    getInodeByName_loop env s parent name entries =
      ((some (SyncMap.LoadOrStore s.inodes ((s.allocatedInodeId + 1) % uint64Size)
                { id := (s.allocatedInodeId + 1) % uint64Size,
                  path := env.join parent.path name }).1, none),
        { s with
            inodes := (SyncMap.LoadOrStore s.inodes ((s.allocatedInodeId + 1) % uint64Size)
                { id := (s.allocatedInodeId + 1) % uint64Size,
                  path := env.join parent.path name }).2
            allocatedInodeId := s.allocatedInodeId + 1 }) := by
  induction entries with
  | nil => simp at h
  | cons e rest ih =>
    by_cases he : e.name = name
    · simp [getInodeByName_loop, he, nextInodeID]
    · have : ∃ f ∈ rest, f.name = name := by
        obtain ⟨f, hf, hfn⟩ := h
        rcases List.mem_cons.mp hf with rfl | hf
        · exact absurd hfn he
        · exact ⟨f, hf, hfn⟩
      simp [getInodeByName_loop, he, ih this]

/-- When the name is not in the listing, the loop of `getInodeByName` ends with `ENOENT`. -/
theorem getInodeByName_loop_absent {H : Type} (env : Env H) (s : State H) (parent : inodeEntry)
    (name : String) (entries : List FileInfo) (h : ∀ f ∈ entries, f.name ≠ name) :
    getInodeByName_loop env s parent name entries = ((none, some ENOENT), s) := by
  induction entries with
  | nil => rfl
  | cons e rest ih =>
    have he : e.name ≠ name := h e (List.mem_cons_self _ _)
    simp [getInodeByName_loop, he, ih (fun f hf => h f (List.mem_cons_of_mem _ hf))]

/-- On a key that is not in the map, `LoadOrStore` stores the value and returns it. -/
theorem LoadOrStore_fresh (m : SyncMap) (k : InodeID) (v : inodeEntry) (h : m k = none) :
    SyncMap.LoadOrStore m k v = (v, SyncMap.Store m k v) := by
  simp [SyncMap.LoadOrStore, h]

/-- A first-time resolution below `2 ^ 64` calls: the id is the counter plus one. -/
theorem getOrCreateInode_fresh {H : Type} (env : Env H) (s : State H) (parent : inodeEntry)
    (name : String) (entries : List FileInfo)
    (hparent : s.inodes parent.id = some parent)
    (hkeys : ∀ (k : Nat) e, s.inodes k = some e → k ≤ s.allocatedInodeId)
    (hcount : s.allocatedInodeId + 1 < uint64Size)
    (hdir : env.readDir s.host parent.path = .ok entries)
    (hname : ∃ f ∈ entries, f.name = name) :
    getOrCreateInode env s parent.id name =
      Run.ret ((some { id := s.allocatedInodeId + 1, path := env.join parent.path name }, none),
        { s with
            inodes := SyncMap.Store s.inodes (s.allocatedInodeId + 1)
              { id := s.allocatedInodeId + 1, path := env.join parent.path name }
            allocatedInodeId := s.allocatedInodeId + 1 }) := by
  have hmod : (s.allocatedInodeId + 1) % uint64Size = s.allocatedInodeId + 1 :=
    Nat.mod_eq_of_lt hcount
  have hnone : s.inodes (s.allocatedInodeId + 1) = none := by
    cases hk : s.inodes (s.allocatedInodeId + 1) with
    | none => rfl
    | some e => have : s.allocatedInodeId + 1 ≤ s.allocatedInodeId := hkeys _ _ hk; omega
  have hload : SyncMap.Load s.inodes parent.id = some parent := hparent
  simp [getOrCreateInode, getInodeByName, getInodeById, hload, hdir,
    getInodeByName_loop_found env s parent name entries hname, hmod,
    LoadOrStore_fresh _ _ _ hnone]

/-- The loop of `ListChildren` on the children `rest`, in a state whose keys are bounded by the
counter: the entries produced, the descriptors stored, and what is left as it was. -/
theorem ListChildren_loop_fresh {H : Type} (env : Env H) (node : inodeEntry)
    (children : List FileInfo) :
    ∀ (rest : List FileInfo) (i : Nat) (s : State H) (acc : List Dirent),
      (∀ f ∈ rest, f ∈ children) →
      s.inodes node.id = some node →
      (∀ (k : Nat) e, s.inodes k = some e → k ≤ s.allocatedInodeId) →
      s.allocatedInodeId + rest.length < uint64Size →
      env.readDir s.host node.path = .ok children →
      ∃ s1, ListChildren_loop env node i rest s acc =
          Run.ret ((acc ++ expectedDirents i s.allocatedInodeId rest, none), s1) ∧
        (∀ k : Nat, k ≤ s.allocatedInodeId → s1.inodes k = s.inodes k) ∧
        (∀ j child, rest[j]? = some child →
          s1.inodes (s.allocatedInodeId + j + 1) =
            some { id := s.allocatedInodeId + j + 1, path := env.join node.path child.name }) ∧
        s1.allocatedInodeId = s.allocatedInodeId + rest.length ∧
        s1.host = s.host ∧ s1.srcPath = s.srcPath := by
  intro rest
  induction rest with
  | nil =>
    intro i s acc _ _ _ _ _
    exact ⟨s, by simp [ListChildren_loop, expectedDirents], fun _ _ => rfl, by simp, rfl, rfl, rfl⟩
  | cons child rest ih =>
    intro i s acc hsub hnode hkeys hcount hdir
    simp only [List.length_cons] at hcount
    have hcount1 : s.allocatedInodeId + 1 < uint64Size := by omega
    have hget := getOrCreateInode_fresh env s node child.name children hnode hkeys hcount1 hdir
      ⟨child, hsub child (List.mem_cons_self _ _), rfl⟩
    have hidle : (node.id : Nat) ≤ s.allocatedInodeId := hkeys _ _ hnode
    unfold InodeID at hidle
    obtain ⟨s1, hrun, hold, hnew, hcnt, hhost, hsrc⟩ := ih (i + 1)
      { s with
          inodes := SyncMap.Store s.inodes (s.allocatedInodeId + 1)
            { id := s.allocatedInodeId + 1, path := env.join node.path child.name }
          allocatedInodeId := s.allocatedInodeId + 1 }
      (acc ++ [{ Offset := i + 1, Inode := s.allocatedInodeId + 1, Name := child.name,
                 Type_ := childType child }])
      (fun f hf => hsub f (List.mem_cons_of_mem _ hf))
      (by simp only [SyncMap.Store]; rw [if_neg (Nat.ne_of_lt (Nat.lt_succ_of_le hidle))]; exact hnode)
      (by
        intro k e hk
        simp only [SyncMap.Store] at hk ⊢
        split at hk
        · rename_i h
          have h1 : k = s.allocatedInodeId + 1 := h
          omega
        · have : k ≤ s.allocatedInodeId := hkeys k e hk
          omega)
      (by simp only; omega)
      hdir
    simp only at hrun hold hnew hcnt hhost hsrc
    refine ⟨s1, ?_, ?_, ?_, ?_, hhost, hsrc⟩
    · simp only [ListChildren_loop, hget, hrun, expectedDirents, List.append_assoc,
        List.singleton_append]
    · intro k hk
      have hne : ¬ (k = s.allocatedInodeId + 1) := by omega
      rw [hold k (by omega)]
      simp only [SyncMap.Store]
      rw [if_neg hne]
    · intro j c hj
      cases j with
      | zero =>
        simp only [List.getElem?_cons_zero, Option.some.injEq] at hj
        subst hj
        rw [hold _ (le_refl _)]
        simp [SyncMap.Store]
      | succ j =>
        simp only [List.getElem?_cons_succ] at hj
        have := hnew j c hj
        rw [show s.allocatedInodeId + (j + 1) + 1 = s.allocatedInodeId + 1 + j + 1 by omega]
        exact this
    · simp only [List.length_cons]; omega

/-- Completeness of `ListChildren` in a state whose keys are bounded by the counter. -/
theorem ListChildren_complete_of_keys {H : Type} (env : Env H) (s : State H) (node : inodeEntry)
    (children : List FileInfo)
    (hnode : s.inodes node.id = some node)
    (hkeys : ∀ (k : Nat) e, s.inodes k = some e → k ≤ s.allocatedInodeId)
    (hcount : s.allocatedInodeId + children.length < uint64Size)
    (hdir : env.readDir s.host node.path = .ok children) :
    ∃ dirents s1,
      inodeEntry.ListChildren env s node = Run.ret ((dirents, none), s1) ∧
      dirents.length = children.length ∧
      ∀ i child, children[i]? = some child →
        ∃ d, dirents[i]? = some d ∧ d.Name = child.name ∧ d.Offset = i + 1 ∧
          s1.inodes d.Inode = some { id := d.Inode, path := env.join node.path child.name } := by
  obtain ⟨s1, hrun, _, hnew, _, _, _⟩ :=
    ListChildren_loop_fresh env node children children 0 s [] (fun _ h => h) hnode hkeys hcount hdir
  refine ⟨expectedDirents 0 s.allocatedInodeId children, s1, ?_, expectedDirents_length _ _ _, ?_⟩
  · simpa [inodeEntry.ListChildren, hdir] using hrun
  · intro i child hi
    refine ⟨{ Offset := i + 1, Inode := s.allocatedInodeId + i + 1, Name := child.name,
              Type_ := childType child }, ?_, rfl, rfl, hnew i child hi⟩
    simp [expectedDirents_getElem?, hi]

/-! ## The table invariant -/

theorem Run.ret_state_eq {α β : Type} {a b : α} {s t : β}
    (h : Run.ret (a, s) = Run.ret (b, t)) : s = t := by
  cases h; rfl

theorem SameTable.refl {H : Type} (s : State H) : SameTable s s := ⟨rfl, rfl, rfl⟩

theorem MkNode_table {H : Type} (env : Env H) (s s1 : State H) (op op1 : MkNodeOp)
    (err : Option GoError) (h : MkNode env s op = Run.ret ((err, op1), s1)) : SameTable s s1 := by
  unfold MkNode at h
  split at h
  · exact absurd h (by simp)
  · split at h
    · cases h; exact SameTable.refl s
    · simp only at h
      split at h
      · cases h; exact ⟨rfl, rfl, rfl⟩
      · split at h
        · cases h; exact SameTable.refl s
        · split at h
          · split at h
            · cases h; exact SameTable.refl s
            · cases h; exact ⟨rfl, rfl, rfl⟩
          · cases h; exact SameTable.refl s

theorem Rename_table {H : Type} (env : Env H) (s s1 : State H) (op op1 : RenameOp)
    (err : Option GoError) (h : Rename env s op = Run.ret ((err, op1), s1)) : SameTable s s1 := by
  unfold Rename at h
  split at h
  · exact absurd h (by simp)
  · split at h
    · cases h; exact SameTable.refl s
    · split at h
      · exact absurd h (by simp)
      · split at h
        · cases h; exact SameTable.refl s
        · cases h; exact ⟨rfl, rfl, rfl⟩

theorem GetInodeAttributes_table {H : Type} (env : Env H) (s s1 : State H)
    (op op1 : GetInodeAttributesOp) (err : Option GoError)
    (h : GetInodeAttributes env s op = Run.ret ((err, op1), s1)) : SameTable s s1 := by
  unfold GetInodeAttributes at h
  split at h
  · cases h; exact SameTable.refl s
  · split at h <;> (cases h; exact SameTable.refl s)

theorem ReadFile_table {H : Type} (env : Env H) (s s1 : State H)
    (op op1 : ReadFileOp) (err : Option GoError)
    (h : ReadFile env s op = Run.ret ((err, op1), s1)) : SameTable s s1 := by
  unfold ReadFile at h
  split at h
  · cases h; exact SameTable.refl s
  · split at h
    · cases h; exact SameTable.refl s
    · split at h
      · cases h; exact SameTable.refl s
      · split at h
        · exact absurd h (by simp)
        · cases h; exact SameTable.refl s

/-- A call of `getInodeByName` that returns either leaves the state as it was and gives an
error, or mints an id. -/
theorem getInodeByName_cases {H : Type} (env : Env H) (s s1 : State H) (parentId : InodeID)
    (name : String) (r : Option inodeEntry × Option GoError)
    (h : getInodeByName env s parentId name = Run.ret (r, s1)) :
    (s1 = s ∧ r.1 = none ∧ r.2 ≠ none) ∨
    ∃ parent, s.inodes parentId = some parent ∧ s1 = minted env s parent name ∧
      r = (some (SyncMap.LoadOrStore s.inodes ((s.allocatedInodeId + 1) % uint64Size)
          { id := (s.allocatedInodeId + 1) % uint64Size,
            path := env.join parent.path name }).1, none) := by
  unfold getInodeByName getInodeById at h
  cases hp : SyncMap.Load s.inodes parentId with
  | none => simp [hp] at h
  | some parent =>
    simp only [hp, Bool.not_true, Bool.false_eq_true, if_false] at h
    cases hd : env.readDir s.host parent.path with
    | error e =>
      simp only [hd, Run.ret.injEq, Prod.mk.injEq] at h
      obtain ⟨rfl, rfl⟩ := h
      exact Or.inl ⟨rfl, rfl, by simp⟩
    | ok entries =>
      simp only [hd, Run.ret.injEq] at h
      by_cases hf : ∃ f ∈ entries, f.name = name
      · rw [getInodeByName_loop_found env s parent name entries hf] at h
        simp only [Prod.mk.injEq] at h
        obtain ⟨rfl, rfl⟩ := h
        exact Or.inr ⟨parent, hp, rfl, rfl⟩
      · rw [getInodeByName_loop_absent env s parent name entries
          (fun f hfm hfn => hf ⟨f, hfm, hfn⟩)] at h
        simp only [Prod.mk.injEq] at h
        obtain ⟨rfl, rfl⟩ := h
        exact Or.inl ⟨rfl, rfl, by simp⟩

/-- Minting an id below `2 ^ 64` keeps the table invariant and stores the new descriptor under
the counter plus one. -/
theorem minted_inv {H : Type} (env : Env H) (s : State H) (parent : inodeEntry) (name : String)
    (hinv : TableInv s) (hlt : s.allocatedInodeId + 1 < uint64Size) :
    TableInv (minted env s parent name) ∧
    (SyncMap.LoadOrStore s.inodes ((s.allocatedInodeId + 1) % uint64Size)
        { id := (s.allocatedInodeId + 1) % uint64Size,
          path := env.join parent.path name }).1
      = { id := s.allocatedInodeId + 1, path := env.join parent.path name } ∧
    (minted env s parent name).inodes (s.allocatedInodeId + 1)
      = some { id := s.allocatedInodeId + 1, path := env.join parent.path name } := by
  have hmod : (s.allocatedInodeId + 1) % uint64Size = s.allocatedInodeId + 1 :=
    Nat.mod_eq_of_lt hlt
  have hnone : s.inodes (s.allocatedInodeId + 1) = none := by
    cases hk : s.inodes (s.allocatedInodeId + 1) with
    | none => rfl
    | some e =>
      have : s.allocatedInodeId + 1 ≤ s.allocatedInodeId := (hinv.2 _ _ hk).2.2
      omega
  have hroot : (1 : Nat) ≤ s.allocatedInodeId := (hinv.2 _ _ hinv.1).2.2
  have hLS := LoadOrStore_fresh s.inodes (s.allocatedInodeId + 1)
    { id := s.allocatedInodeId + 1, path := env.join parent.path name } hnone
  have hmint : minted env s parent name =
      { s with
          inodes := SyncMap.Store s.inodes (s.allocatedInodeId + 1)
            { id := s.allocatedInodeId + 1, path := env.join parent.path name }
          allocatedInodeId := s.allocatedInodeId + 1 } := by
    simp only [minted, hmod, hLS]
  rw [hmint, hmod, hLS]
  refine ⟨⟨?_, ?_⟩, rfl, ?_⟩
  · have hne : ¬ ((1 : Nat) = s.allocatedInodeId + 1) := by omega
    have hne : ¬ (RootInodeID = s.allocatedInodeId + 1) := hne
    simp only [SyncMap.Store, if_neg hne]
    exact hinv.1
  · intro k e hk
    simp only [SyncMap.Store] at hk ⊢
    split at hk
    · rename_i hkeq
      have hkeq1 : k = s.allocatedInodeId + 1 := hkeq
      cases hk
      refine ⟨hkeq1.symm, ?_, ?_⟩
      · show (1 : Nat) ≤ k
        omega
      · omega
    · obtain ⟨h1, h2, h3⟩ := hinv.2 k e hk
      exact ⟨h1, h2, by omega⟩
  · simp only [SyncMap.Store, if_true]

/-- The function `getInodeByName` keeps the table invariant as long as the counter stays below
`2 ^ 64`, and a descriptor it returns is stored under the new counter value. -/
theorem getInodeByName_inv {H : Type} (env : Env H) (s s1 : State H) (parentId : InodeID)
    (name : String) (r : Option inodeEntry × Option GoError)
    (hinv : TableInv s) (h : getInodeByName env s parentId name = Run.ret (r, s1)) :
    s.allocatedInodeId ≤ s1.allocatedInodeId ∧ s1.srcPath = s.srcPath ∧
    (s1.allocatedInodeId < uint64Size →
      TableInv s1 ∧ ∀ e, r.1 = some e → e.id = s1.allocatedInodeId ∧
        s.allocatedInodeId < s1.allocatedInodeId ∧ s1.inodes e.id = some e) := by
  rcases getInodeByName_cases env s s1 parentId name r h with ⟨rfl, hr, _⟩ | ⟨parent, _, rfl, rfl⟩
  · exact ⟨le_refl _, rfl, fun _ => ⟨hinv, fun e he => by rw [hr] at he; cases he⟩⟩
  · refine ⟨by simp [minted], rfl, fun hlt => ?_⟩
    have hlt' : s.allocatedInodeId + 1 < uint64Size := hlt
    obtain ⟨h1, h2, h3⟩ := minted_inv env s parent name hinv hlt'
    refine ⟨h1, fun e he => ?_⟩
    simp only [Option.some.injEq] at he
    rw [h2] at he
    subst he
    exact ⟨rfl, by simp [minted], h3⟩

theorem getOrCreateInode_state {H : Type} (env : Env H) (s s1 : State H) (parentId : InodeID)
    (name : String) (r : Option inodeEntry × Option GoError)
    (h : getOrCreateInode env s parentId name = Run.ret (r, s1)) :
    ∃ r1, getInodeByName env s parentId name = Run.ret (r1, s1) := by
  unfold getOrCreateInode at h
  split at h
  · exact absurd h (by simp)
  · rename_i entry err s2 hget
    split at h
    · cases h; exact ⟨_, hget⟩
    · cases h; exact ⟨_, hget⟩

theorem getInodeByName_mono {H : Type} (env : Env H) (s s1 : State H) (parentId : InodeID)
    (name : String) (r : Option inodeEntry × Option GoError)
    (h : getInodeByName env s parentId name = Run.ret (r, s1)) :
    s.allocatedInodeId ≤ s1.allocatedInodeId ∧ s1.srcPath = s.srcPath := by
  rcases getInodeByName_cases env s s1 parentId name r h with ⟨rfl, _, _⟩ | ⟨parent, _, rfl, _⟩
  · exact ⟨le_refl _, rfl⟩
  · exact ⟨by simp [minted], rfl⟩

theorem ListChildren_loop_mono {H : Type} (env : Env H) (node : inodeEntry) :
    ∀ (rest : List FileInfo) (i : Nat) (s s1 : State H) (acc : List Dirent)
      (r : List Dirent × Option GoError),
      ListChildren_loop env node i rest s acc = Run.ret (r, s1) →
      s.allocatedInodeId ≤ s1.allocatedInodeId ∧ s1.srcPath = s.srcPath := by
  intro rest
  induction rest with
  | nil =>
    intro i s s1 acc r h
    simp only [ListChildren_loop, Run.ret.injEq, Prod.mk.injEq] at h
    obtain ⟨_, rfl⟩ := h
    exact ⟨le_refl _, rfl⟩
  | cons child rest ih =>
    intro i s s1 acc r h
    unfold ListChildren_loop at h
    split at h
    · exact absurd h (by simp)
    · rename_i childInode s2 hget
      obtain ⟨r1, hname⟩ := getOrCreateInode_state env s s2 node.id child.name _ hget
      obtain ⟨hmono, hsrc⟩ := getInodeByName_mono env s s2 node.id child.name r1 hname
      obtain ⟨hmono2, hsrc2⟩ := ih _ _ _ _ _ h
      exact ⟨le_trans hmono hmono2, hsrc2.trans hsrc⟩
    · rename_i x s2 _ hget
      obtain ⟨r1, hname⟩ := getOrCreateInode_state env s s2 node.id child.name _ hget
      obtain ⟨hmono, hsrc⟩ := getInodeByName_mono env s s2 node.id child.name r1 hname
      simp only [Run.ret.injEq, Prod.mk.injEq] at h
      obtain ⟨_, rfl⟩ := h
      exact ⟨hmono, hsrc⟩

theorem ListChildren_loop_inv {H : Type} (env : Env H) (node : inodeEntry) :
    ∀ (rest : List FileInfo) (i : Nat) (s s1 : State H) (acc : List Dirent)
      (r : List Dirent × Option GoError),
      TableInv s → ListChildren_loop env node i rest s acc = Run.ret (r, s1) →
      s1.allocatedInodeId < uint64Size → TableInv s1 := by
  intro rest
  induction rest with
  | nil =>
    intro i s s1 acc r hinv h _
    simp only [ListChildren_loop, Run.ret.injEq, Prod.mk.injEq] at h
    obtain ⟨_, rfl⟩ := h
    exact hinv
  | cons child rest ih =>
    intro i s s1 acc r hinv h hlt
    unfold ListChildren_loop at h
    split at h
    · exact absurd h (by simp)
    · rename_i childInode s2 hget
      obtain ⟨r1, hname⟩ := getOrCreateInode_state env s s2 node.id child.name _ hget
      obtain ⟨hmono2, _⟩ := ListChildren_loop_mono env node _ _ _ _ _ _ h
      have hs2 := (getInodeByName_inv env s s2 node.id child.name r1 hinv hname).2.2
        (lt_of_le_of_lt hmono2 hlt)
      exact ih _ _ _ _ _ hs2.1 h hlt
    · rename_i x s2 _ hget
      obtain ⟨r1, hname⟩ := getOrCreateInode_state env s s2 node.id child.name _ hget
      simp only [Run.ret.injEq, Prod.mk.injEq] at h
      obtain ⟨_, rfl⟩ := h
      exact ((getInodeByName_inv env s s2 node.id child.name r1 hinv hname).2.2 hlt).1

theorem ListChildren_mono {H : Type} (env : Env H) (s s1 : State H) (node : inodeEntry)
    (r : List Dirent × Option GoError)
    (h : inodeEntry.ListChildren env s node = Run.ret (r, s1)) :
    s.allocatedInodeId ≤ s1.allocatedInodeId ∧ s1.srcPath = s.srcPath := by
  unfold inodeEntry.ListChildren at h
  split at h
  · have hs := Run.ret_state_eq h
    subst hs
    exact ⟨le_refl _, rfl⟩
  · exact ListChildren_loop_mono env node _ _ _ _ _ _ h

theorem ListChildren_inv {H : Type} (env : Env H) (s s1 : State H) (node : inodeEntry)
    (r : List Dirent × Option GoError) (hinv : TableInv s)
    (h : inodeEntry.ListChildren env s node = Run.ret (r, s1))
    (hlt : s1.allocatedInodeId < uint64Size) : TableInv s1 := by
  unfold inodeEntry.ListChildren at h
  split at h
  · have hs := Run.ret_state_eq h
    subst hs
    exact hinv
  · exact ListChildren_loop_inv env node _ _ _ _ _ _ hinv h hlt

theorem ReadDir_state {H : Type} (env : Env H) (s s1 : State H) (op op1 : ReadDirOp)
    (err : Option GoError) (h : ReadDir env s op = Run.ret ((err, op1), s1)) :
    s1 = s ∨ ∃ entry r, inodeEntry.ListChildren env s entry = Run.ret (r, s1) := by
  unfold ReadDir at h
  split at h
  · exact Or.inl (Run.ret_state_eq h).symm
  · split at h
    · exact absurd h (by simp)
    · rename_i _ entry _ _ children lerr s2 hlist
      have hres : ∃ entry r, inodeEntry.ListChildren env s entry = Run.ret (r, s2) :=
        ⟨entry, _, hlist⟩
      split at h
      · have hs := Run.ret_state_eq h
        subst hs
        exact Or.inr hres
      · split at h
        · have hs := Run.ret_state_eq h
          subst hs
          exact Or.inr hres
        · split at h
          · exact absurd h (by simp)
          · have hs := Run.ret_state_eq h
            subst hs
            exact Or.inr hres

theorem LookUpInode_state {H : Type} (env : Env H) (s s1 : State H) (op op1 : LookUpInodeOp)
    (err : Option GoError) (h : LookUpInode env s op = Run.ret ((err, op1), s1)) :
    ∃ r, getInodeByName env s op.Parent op.Name = Run.ret (r, s1) := by
  unfold LookUpInode at h
  split at h
  · exact absurd h (by simp)
  · rename_i _ entry gerr s2 hget
    have hres := getOrCreateInode_state env s s2 op.Parent op.Name _ hget
    split at h
    · have hs := Run.ret_state_eq h
      subst hs
      exact hres
    · split at h
      · have hs := Run.ret_state_eq h
        subst hs
        exact hres
      · split at h <;> (have hs := Run.ret_state_eq h; subst hs; exact hres)

/-- Deleting a key other than the root id keeps the table invariant. -/
theorem Delete_inv {H : Type} (s : State H) (k : Nat) (h : H) (hinv : TableInv s)
    (hk : RootInodeID ≠ k) :
    TableInv { s with inodes := SyncMap.Delete s.inodes k, host := h } := by
  refine ⟨?_, ?_⟩
  · simp only [SyncMap.Delete, if_neg hk]
    exact hinv.1
  · intro j e hj
    simp only [SyncMap.Delete] at hj
    split at hj
    · cases hj
    · exact hinv.2 j e hj

theorem Unlink_mono {H : Type} (env : Env H) (s s1 : State H) (op op1 : UnlinkOp)
    (err : Option GoError) (h : Unlink env s op = Run.ret ((err, op1), s1)) :
    s.allocatedInodeId ≤ s1.allocatedInodeId ∧ s1.srcPath = s.srcPath := by
  unfold Unlink at h
  split at h
  · exact absurd h (by simp)
  · rename_i _ x gerr s2 hname
    have hmono := getInodeByName_mono env s s2 op.Parent op.Name _ hname
    have hs := Run.ret_state_eq h
    subst hs
    exact hmono
  · exact absurd h (by simp)
  · rename_i _ entry s2 hname
    have hmono := getInodeByName_mono env s s2 op.Parent op.Name _ hname
    split at h <;> (have hs := Run.ret_state_eq h; subst hs; exact hmono)

theorem Unlink_inv {H : Type} (env : Env H) (s s1 : State H) (op op1 : UnlinkOp)
    (err : Option GoError) (hinv : TableInv s)
    (h : Unlink env s op = Run.ret ((err, op1), s1))
    (hlt : s1.allocatedInodeId < uint64Size) : TableInv s1 := by
  unfold Unlink at h
  split at h
  · exact absurd h (by simp)
  · rename_i _ x gerr s2 hname
    have hstep := (getInodeByName_inv env s s2 op.Parent op.Name _ hinv hname).2.2
    have hs := Run.ret_state_eq h
    subst hs
    exact (hstep hlt).1
  · exact absurd h (by simp)
  · rename_i _ entry s2 hname
    have hstep := (getInodeByName_inv env s s2 op.Parent op.Name _ hinv hname).2.2
    have hroot : (1 : Nat) ≤ s.allocatedInodeId := (hinv.2 _ _ hinv.1).2.2
    split at h
    · have hs := Run.ret_state_eq h
      subst hs
      exact ⟨(hstep hlt).1.1, (hstep hlt).1.2⟩
    · have hs := Run.ret_state_eq h
      subst hs
      obtain ⟨hinv2, hent⟩ := hstep hlt
      obtain ⟨hid, hgt, _⟩ := hent entry rfl
      have hne : @Ne Nat 1 entry.id := by
        have hid1 : @Eq Nat entry.id s2.allocatedInodeId := hid
        omega
      exact Delete_inv s2 entry.id _ hinv2 hne

theorem SameTable.mono {H : Type} {s s1 : State H} (h : SameTable s s1) :
    s.allocatedInodeId ≤ s1.allocatedInodeId ∧ s1.srcPath = s.srcPath :=
  ⟨le_of_eq h.2.2.symm, h.2.1⟩

theorem SameTable.inv {H : Type} {s s1 : State H} (h : SameTable s s1) (hinv : TableInv s) :
    TableInv s1 := by
  obtain ⟨h1, h2, h3⟩ := h
  refine ⟨?_, ?_⟩
  · rw [h1, h2]; exact hinv.1
  · intro k e hk
    rw [h1] at hk
    rw [h3]
    exact hinv.2 k e hk

theorem Reply.outcome_ret {H Op : Type} {x : Reply H Op} {err : Option GoError} {s1 : State H}
    (h : Reply.outcome x = Run.ret (err, s1)) : ∃ op1, x = Run.ret ((err, op1), s1) := by
  unfold Reply.outcome at h
  split at h
  · exact absurd h (by simp)
  · cases h; exact ⟨_, rfl⟩

/-- No request lowers the counter or changes `srcPath`. -/
theorem serve_mono {H : Type} (env : Env H) (s s1 : State H) (req : Request)
    (err : Option GoError) (h : serve env s req = Run.ret (err, s1)) :
    s.allocatedInodeId ≤ s1.allocatedInodeId ∧ s1.srcPath = s.srcPath := by
  cases req <;> simp only [serve] at h <;> obtain ⟨op1, h⟩ := Reply.outcome_ret h
  case lookUpInode =>
    obtain ⟨r, hr⟩ := LookUpInode_state env s s1 _ op1 err h
    exact getInodeByName_mono env s s1 _ _ r hr
  case getInodeAttributes => exact (GetInodeAttributes_table env s s1 _ op1 err h).mono
  case readDir =>
    rcases ReadDir_state env s s1 _ op1 err h with rfl | ⟨entry, r, hr⟩
    · exact ⟨le_refl _, rfl⟩
    · exact ListChildren_mono env s s1 entry r hr
  case readFile => exact (ReadFile_table env s s1 _ op1 err h).mono
  case mkNode => exact (MkNode_table env s s1 _ op1 err h).mono
  case rename => exact (Rename_table env s s1 _ op1 err h).mono
  case unlink => exact Unlink_mono env s s1 _ op1 err h
  all_goals
    have hs := Run.ret_state_eq h
    subst hs
    exact ⟨le_refl _, rfl⟩

/-- Every request keeps the table invariant as long as the counter stays below `2 ^ 64`. -/
theorem serve_inv {H : Type} (env : Env H) (s s1 : State H) (req : Request)
    (err : Option GoError) (hinv : TableInv s) (h : serve env s req = Run.ret (err, s1))
    (hlt : s1.allocatedInodeId < uint64Size) : TableInv s1 := by
  cases req <;> simp only [serve] at h <;> obtain ⟨op1, h⟩ := Reply.outcome_ret h
  case lookUpInode =>
    obtain ⟨r, hr⟩ := LookUpInode_state env s s1 _ op1 err h
    exact ((getInodeByName_inv env s s1 _ _ r hinv hr).2.2 hlt).1
  case getInodeAttributes => exact (GetInodeAttributes_table env s s1 _ op1 err h).inv hinv
  case readDir =>
    rcases ReadDir_state env s s1 _ op1 err h with rfl | ⟨entry, r, hr⟩
    · exact hinv
    · exact ListChildren_inv env s s1 entry r hinv hr hlt
  case readFile => exact (ReadFile_table env s s1 _ op1 err h).inv hinv
  case mkNode => exact (MkNode_table env s s1 _ op1 err h).inv hinv
  case rename => exact (Rename_table env s s1 _ op1 err h).inv hinv
  case unlink => exact Unlink_inv env s s1 _ op1 err hinv h hlt
  all_goals
    have hs := Run.ret_state_eq h
    subst hs
    exact hinv

/-- No sequence of requests lowers the counter or changes `srcPath`. -/
theorem serveAll_mono {H : Type} (env : Env H) :
    ∀ (reqs : List Request) (s s1 : State H), serveAll env s reqs = Run.ret s1 →
      s.allocatedInodeId ≤ s1.allocatedInodeId ∧ s1.srcPath = s.srcPath := by
  intro reqs
  induction reqs with
  | nil =>
    intro s s1 h
    simp only [serveAll, Run.ret.injEq] at h
    subst h
    exact ⟨le_refl _, rfl⟩
  | cons req rest ih =>
    intro s s1 h
    unfold serveAll at h
    split at h
    · exact absurd h (by simp)
    · rename_i _ err s2 hserve
      obtain ⟨h1, h2⟩ := serve_mono env s s2 req err hserve
      obtain ⟨h3, h4⟩ := ih s2 s1 h
      exact ⟨le_trans h1 h3, h4.trans h2⟩

/-- Every sequence of requests keeps the table invariant as long as the counter stays below
`2 ^ 64`. -/
theorem serveAll_inv {H : Type} (env : Env H) :
    ∀ (reqs : List Request) (s s1 : State H), TableInv s → serveAll env s reqs = Run.ret s1 →
      s1.allocatedInodeId < uint64Size → TableInv s1 := by
  intro reqs
  induction reqs with
  | nil =>
    intro s s1 hinv h _
    simp only [serveAll, Run.ret.injEq] at h
    subst h
    exact hinv
  | cons req rest ih =>
    intro s s1 hinv h hlt
    unfold serveAll at h
    split at h
    · exact absurd h (by simp)
    · rename_i _ err s2 hserve
      obtain ⟨h3, _⟩ := serveAll_mono env rest s2 s1 h
      exact ih s2 s1 (serve_inv env s s2 req err hinv hserve (lt_of_le_of_lt h3 hlt)) h hlt

/-- The initial state satisfies the table invariant. -/
theorem NewFileSystemServer_inv {H : Type} (h : H) (srcPath : String) :
    TableInv (NewFileSystemServer h srcPath) := by
  refine ⟨by simp [NewFileSystemServer, SyncMap.Store], ?_⟩
  intro k e hk
  simp only [NewFileSystemServer, SyncMap.Store] at hk ⊢
  split at hk
  · rename_i hkeq
    cases hk
    exact ⟨hkeq.symm, le_of_eq hkeq.symm, le_of_eq hkeq⟩
  · cases hk

/-- The ids of `k` calls from the counter value `c`, while `c + k` is below `2 ^ 64`. -/
theorem nextInodeIDs_eq (k c : Nat) (h : c + k < uint64Size) :
    nextInodeIDs c k = (List.range k).map (fun i => c + (i + 1)) := by
  induction k generalizing c with
  | zero => rfl
  | succ k ih =>
    have hmod : (c + 1) % uint64Size = c + 1 := Nat.mod_eq_of_lt (by omega)
    simp only [nextInodeIDs, nextInodeID, hmod, List.range_succ_eq_map, List.map_cons,
      List.map_map]
    rw [ih (c + 1) (by omega)]
    congr 1
    apply List.map_congr_left
    intro i _
    simp only [Function.comp]
    omega

/-! ## The claims -/

/-- The id that `nextInodeID` returns, and the `uint64` left in memory, depend on the counter
only through its value modulo `2 ^ 64`. -/
theorem nextInodeID_memory (c : Nat) :
    (nextInodeID c).1 = (nextInodeID (c % uint64Size)).1 ∧
    (nextInodeID c).2 % uint64Size = (nextInodeID c).1 := by
  simp [nextInodeID, Nat.add_mod]

theorem leBytes_length (k n : Nat) : (leBytes k n).length = k := by
  induction k generalizing n with
  | zero => rfl
  | succ k ih => simp [leBytes, ih]

theorem demoDirentBytes_pos (d : Dirent) : 0 < (demoEnv.direntBytes d).length := by
  show 0 < (demoDirentBytes d).length
  simp only [demoDirentBytes, List.length_append, leBytes_length]
  omega

/-- Claim C9: `syscallMode m` is the nine permission bits of `m` or-ed with `S_ISUID`,
`S_ISGID` and `S_ISVTX` exactly when `m` has `ModeSetuid`, `ModeSetgid` and `ModeSticky`; it
is below `0o10000`; and it is the same for two modes that agree on these twelve bits, so no
other bit of `m` (no file-type bit) has a part in it. -/
theorem syscallMode_translation (m : FileMode) :
    syscallMode m =
      ((m &&& 0o777) ||| (if m &&& ModeSetuid ≠ 0 then 0o4000 else 0)
        ||| (if m &&& ModeSetgid ≠ 0 then 0o2000 else 0)
        ||| (if m &&& ModeSticky ≠ 0 then 0o1000 else 0)) ∧
    syscallMode m < 0o10000 ∧
    syscallMode (m &&& (0o777 ||| ModeSetuid ||| ModeSetgid ||| ModeSticky)) = syscallMode m := by
  refine ⟨?_, syscallMode_lt m, syscallMode_mask m⟩
  rw [syscallMode_eq]
  have h23 := and_two_pow_ne_zero_iff m 23
  have h22 := and_two_pow_ne_zero_iff m 22
  have h20 := and_two_pow_ne_zero_iff m 20
  simp only [bne_iff_ne, ne_eq] at h23 h22 h20
  simp only [ModeSetuid, ModeSetgid, ModeSticky, ne_eq]
  cases hb23 : m.testBit 23 <;> cases hb22 : m.testBit 22 <;> cases hb20 : m.testBit 20 <;>
    simp_all


/-- Claim C4: for a known identifier whose backing file is readable with contents `c`, a read
at offset `len(c)` succeeds with `BytesRead = 0`, a read at an offset greater than `len(c)`
returns `EIO` and leaves the request as it was (so `BytesRead` stays at its initial 0), and a
read at an offset between 0 and `len(c)` succeeds with
`BytesRead = min(len(Dst), len(c) - offset)`, the destination holding that many bytes of `c`
from the offset on. -/
theorem ReadFile_offset_boundary {H : Type} (env : Env H) (s : State H) (op : ReadFileOp)
    (entry : inodeEntry) (c : List Byte)
    (hkey : s.inodes op.Inode = some entry)
    (hread : env.readFile s.host entry.path = .ok c) :
    (op.Offset = (c.length : Int) →
        ReadFile env s op = Run.ret ((none, { op with BytesRead := 0 }), s)) ∧
    ((c.length : Int) < op.Offset → ReadFile env s op = Run.ret ((some EIO, op), s)) ∧
    (0 ≤ op.Offset → op.Offset ≤ (c.length : Int) →
        ReadFile env s op =
          Run.ret ((none,
            { op with
                Dst := (c.drop op.Offset.toNat).take (min op.Dst.length (c.length - op.Offset.toNat))
                        ++ op.Dst.drop (min op.Dst.length (c.length - op.Offset.toNat))
                BytesRead := min op.Dst.length (c.length - op.Offset.toNat) }), s)) := by
  have hload : SyncMap.Load s.inodes op.Inode = some entry := hkey
  have hcont : inodeEntry.Contents env s.host entry = .ok c := hread
  refine ⟨?_, ?_, ?_⟩
  · intro hoff
    have h1 : ¬ (op.Offset > (c.length : Int)) := by omega
    have h2 : ¬ (op.Offset < 0) := by omega
    have h3 : op.Offset.toNat = c.length := by omega
    simp [ReadFile, hload, hcont, h1, h2, h3, goCopy]
  · intro hoff
    simp [ReadFile, hload, hcont, hoff]
  · intro h0 hle
    have h1 : ¬ (op.Offset > (c.length : Int)) := by omega
    have h2 : ¬ (op.Offset < 0) := by omega
    simp [ReadFile, hload, hcont, h1, h2, goCopy]

/-- The statement of `ReadFile_offset_boundary` for a read of the 5-byte file `b` (id 3) of the
concrete host into a buffer of 4 bytes at offset 2. -/
theorem ReadFile_offset_boundary_witness :
    (demoReadFileOp.Offset = ((List.range 5).length : Int) →
        ReadFile demoEnv demoStateListed demoReadFileOp =
          Run.ret ((none, { demoReadFileOp with BytesRead := 0 }), demoStateListed)) ∧
    (((List.range 5).length : Int) < demoReadFileOp.Offset →
        ReadFile demoEnv demoStateListed demoReadFileOp =
          Run.ret ((some EIO, demoReadFileOp), demoStateListed)) ∧
    (0 ≤ demoReadFileOp.Offset → demoReadFileOp.Offset ≤ ((List.range 5).length : Int) →
        ReadFile demoEnv demoStateListed demoReadFileOp =
          Run.ret ((none,
            { demoReadFileOp with
                Dst := ((List.range 5).drop demoReadFileOp.Offset.toNat).take
                          (min demoReadFileOp.Dst.length
                            ((List.range 5).length - demoReadFileOp.Offset.toNat))
                        ++ demoReadFileOp.Dst.drop
                          (min demoReadFileOp.Dst.length
                            ((List.range 5).length - demoReadFileOp.Offset.toNat))
                BytesRead := min demoReadFileOp.Dst.length
                  ((List.range 5).length - demoReadFileOp.Offset.toNat) }), demoStateListed)) :=
  ReadFile_offset_boundary demoEnv demoStateListed demoReadFileOp { id := 3, path := "/src/b" }
    (List.range 5) rfl rfl

/-- Claim C5: for a known directory identifier whose listing `L` has `n` entries and a request
with `BytesRead = 0`, an offset greater than `n` gives `EIO` and the request is left as it
was; an offset of at most `n` succeeds, and for some `k` the bytes written at the start of the
destination are the serializations, in order, of the first `k` entries of `L` from the offset
on, `BytesRead` is the sum of their sizes and at most `len(Dst)`, and the entry after these
`k`, if there is one, does not fit in the rest of the buffer. -/
theorem ReadDir_resumable {H : Type} (env : Env H) (s s1 : State H) (op : ReadDirOp)
    (entry : inodeEntry) (L : List Dirent)
    (hkey : s.inodes op.Inode = some entry)
    (hlist : inodeEntry.ListChildren env s entry = Run.ret ((L, none), s1))
    (hser : ∀ d, 0 < (env.direntBytes d).length)
    (hzero : op.BytesRead = 0) :
    (L.length < op.Offset → ReadDir env s op = Run.ret ((some EIO, op), s1)) ∧
    (op.Offset ≤ L.length →
      ∃ k, k ≤ (L.drop op.Offset).length ∧
        ReadDir env s op =
          Run.ret ((none,
            { op with
                Dst := direntsBytes env ((L.drop op.Offset).take k)
                        ++ op.Dst.drop (direntsBytes env ((L.drop op.Offset).take k)).length
                BytesRead := (direntsBytes env ((L.drop op.Offset).take k)).length }), s1) ∧
        (direntsBytes env ((L.drop op.Offset).take k)).length =
          (((L.drop op.Offset).take k).map (fun d => (env.direntBytes d).length)).sum ∧
        (direntsBytes env ((L.drop op.Offset).take k)).length ≤ op.Dst.length ∧
        ∀ d, (L.drop op.Offset)[k]? = some d →
          op.Dst.length - (direntsBytes env ((L.drop op.Offset).take k)).length
            < (env.direntBytes d).length) := by
  have hload : SyncMap.Load s.inodes op.Inode = some entry := hkey
  refine ⟨?_, ?_⟩
  · intro hoff
    have hgt : op.Offset > L.length := hoff
    simp [ReadDir, hload, hlist, hgt]
  · intro hoff
    have hngt : ¬ (op.Offset > L.length) := by omega
    obtain ⟨k, hk, hle, hrun, hstop⟩ :=
      ReadDir_loop_spec env hser (L.drop op.Offset) op (by omega)
    rw [hzero] at hle hrun hstop
    simp only [Nat.zero_add, List.take_zero, List.nil_append] at hle hrun hstop
    refine ⟨k, hk, ?_, direntsBytes_length env _, hle, hstop⟩
    simp only [ReadDir, hload, hlist, ne_eq, not_true_eq_false, if_false, hngt, hrun]

/-- The statement of `ReadDir_resumable` for a listing of the root of the concrete host from
offset 1 into a buffer of 40 bytes: the entry `b` (32 bytes) is written and `sda` is not. -/
theorem ReadDir_resumable_witness :
    (demoListing.length < demoReadDirOp.Offset →
      ReadDir demoEnv demoState demoReadDirOp =
        Run.ret ((some EIO, demoReadDirOp), demoStateListed)) ∧
    (demoReadDirOp.Offset ≤ demoListing.length →
      ∃ k, k ≤ (demoListing.drop demoReadDirOp.Offset).length ∧
        ReadDir demoEnv demoState demoReadDirOp =
          Run.ret ((none,
            { demoReadDirOp with
                Dst := direntsBytes demoEnv ((demoListing.drop demoReadDirOp.Offset).take k)
                        ++ demoReadDirOp.Dst.drop
                          (direntsBytes demoEnv
                            ((demoListing.drop demoReadDirOp.Offset).take k)).length
                BytesRead :=
                  (direntsBytes demoEnv
                    ((demoListing.drop demoReadDirOp.Offset).take k)).length }),
            demoStateListed) ∧
        (direntsBytes demoEnv ((demoListing.drop demoReadDirOp.Offset).take k)).length =
          (((demoListing.drop demoReadDirOp.Offset).take k).map
            (fun d => (demoEnv.direntBytes d).length)).sum ∧
        (direntsBytes demoEnv ((demoListing.drop demoReadDirOp.Offset).take k)).length
          ≤ demoReadDirOp.Dst.length ∧
        ∀ d, (demoListing.drop demoReadDirOp.Offset)[k]? = some d →
          demoReadDirOp.Dst.length
              - (direntsBytes demoEnv ((demoListing.drop demoReadDirOp.Offset).take k)).length
            < (demoEnv.direntBytes d).length) :=
  ReadDir_resumable demoEnv demoState demoStateListed demoReadDirOp
    { id := RootInodeID, path := "/src" } demoListing rfl rfl demoDirentBytes_pos rfl

/-- Claim C6: in every state the server reaches from `NewFileSystemServer` by serving requests,
for every node of the table whose backing directory is readable with the children
`c_0, ..., c_{n-1}` (the `n` ids to mint staying below `2 ^ 64`), `ListChildren` returns
exactly `n` entries with no error; the entry `i` has the name of `c_i` and the offset `i + 1`,
and its inode field is an id that the table maps to a descriptor whose path is the path of the
node joined with that name. -/
theorem ListChildren_complete {H : Type} (env : Env H) (h : H) (srcPath : String)
    (reqs : List Request) (s : State H) (key : InodeID) (node : inodeEntry)
    (children : List FileInfo)
    (hrun : serveAll env (NewFileSystemServer h srcPath) reqs = Run.ret s)
    (hnode : s.inodes key = some node)
    (hcount : s.allocatedInodeId + children.length < uint64Size)
    (hdir : env.readDir s.host node.path = .ok children) :
    ∃ dirents s1,
      inodeEntry.ListChildren env s node = Run.ret ((dirents, none), s1) ∧
      dirents.length = children.length ∧
      ∀ i child, children[i]? = some child →
        ∃ d, dirents[i]? = some d ∧ d.Name = child.name ∧ d.Offset = i + 1 ∧
          s1.inodes d.Inode = some { id := d.Inode, path := env.join node.path child.name } := by
  have hinv : TableInv s :=
    serveAll_inv env reqs _ s (NewFileSystemServer_inv h srcPath) hrun (by omega)
  have hid : node.id = key := (hinv.2 key node hnode).1
  exact ListChildren_complete_of_keys env s node children (by rw [hid]; exact hnode)
    (fun k e hk => (hinv.2 k e hk).2.2) hcount hdir

/-- The statement of `ListChildren_complete` for the root directory of the concrete host after
`demoRequests` have been served. -/
theorem ListChildren_complete_witness :
    ∃ dirents s1,
      inodeEntry.ListChildren demoEnv demoStateServed { id := RootInodeID, path := "/src" }
        = Run.ret ((dirents, none), s1) ∧
      dirents.length = demoStateServed.host.files.length ∧
      ∀ i child, demoStateServed.host.files[i]? = some child →
        ∃ d, dirents[i]? = some d ∧ d.Name = child.name ∧ d.Offset = i + 1 ∧
          s1.inodes d.Inode = some { id := d.Inode, path := demoEnv.join "/src" child.name } :=
  ListChildren_complete demoEnv demoHost "/src" demoRequests demoStateServed RootInodeID
    { id := RootInodeID, path := "/src" } demoStateServed.host.files rfl rfl (by decide) rfl

/-- Claim C7, as amended: `CreateFile`, `WriteFile`, `SetInodeAttributes`, `MkDir`, `RmDir`,
`CreateSymlink`, `ReadSymlink`, `SetXattr`, `RemoveXattr` and `SyncFile` return `ENOSYS` for
every request and every state and leave the request and the state (the inode table with it)
unchanged; `GetXattr`, `ListXattr`, `FlushFile` and `ForgetInode` return success and leave
the request and the state unchanged. -/
theorem out_of_scope_handlers {H : Type} (s : State H) (createFile : CreateFileOp)
    (writeFile : WriteFileOp) (setAttr : SetInodeAttributesOp) (mkDir : MkDirOp)
    (rmDir : RmDirOp) (createSymlink : CreateSymlinkOp) (readSymlink : ReadSymlinkOp)
    (setXattr : SetXattrOp) (removeXattr : RemoveXattrOp) (syncFile : SyncFileOp)
    (getXattr : GetXattrOp) (listXattr : ListXattrOp) (flushFile : FlushFileOp)
    (forget : ForgetInodeOp) :
    CreateFile s createFile = Run.ret ((some ENOSYS, createFile), s) ∧
    WriteFile s writeFile = Run.ret ((some ENOSYS, writeFile), s) ∧
    SetInodeAttributes s setAttr = Run.ret ((some ENOSYS, setAttr), s) ∧
    MkDir s mkDir = Run.ret ((some ENOSYS, mkDir), s) ∧
    RmDir s rmDir = Run.ret ((some ENOSYS, rmDir), s) ∧
    CreateSymlink s createSymlink = Run.ret ((some ENOSYS, createSymlink), s) ∧
    ReadSymlink s readSymlink = Run.ret ((some ENOSYS, readSymlink), s) ∧
    SetXattr s setXattr = Run.ret ((some ENOSYS, setXattr), s) ∧
    RemoveXattr s removeXattr = Run.ret ((some ENOSYS, removeXattr), s) ∧
    SyncFile s syncFile = Run.ret ((some ENOSYS, syncFile), s) ∧
    GetXattr s getXattr = Run.ret ((none, getXattr), s) ∧
    ListXattr s listXattr = Run.ret ((none, listXattr), s) ∧
    FlushFile s flushFile = Run.ret ((none, flushFile), s) ∧
    ForgetInode s forget = Run.ret ((none, forget), s) :=
  ⟨rfl, rfl, rfl, rfl, rfl, rfl, rfl, rfl, rfl, rfl, rfl, rfl, rfl, rfl⟩

/-- Claim C7 as stated fails: on the concrete host the status of `GetXattr`, of `ListXattr`
and of `FlushFile` is not `ENOSYS`; each returns success. -/
theorem xattr_and_flush_not_ENOSYS :
    Reply.status (GetXattr demoState { Inode := 1, Name := "user.x", Dst := [], BytesRead := 0 })
      ≠ Run.ret (some ENOSYS) ∧
    Reply.status (ListXattr demoState { Inode := 1, Dst := [], BytesRead := 0 })
      ≠ Run.ret (some ENOSYS) ∧
    Reply.status (FlushFile demoState { Inode := 1, Handle := 0 }) ≠ Run.ret (some ENOSYS) ∧
    Reply.status (GetXattr demoState { Inode := 1, Name := "user.x", Dst := [], BytesRead := 0 })
      = Run.ret none :=
  ⟨by decide, by decide, by decide, rfl⟩

/-- Claim C8: the `k` first calls of `nextInodeID`, fewer than `2 ^ 64 - RootInodeID` of
them, return `RootInodeID + 1, ..., RootInodeID + k`, each greater than the root id and than
the ids before it; and after any sequence of requests served from the initial state with
fewer than `2 ^ 64 - RootInodeID` calls in all (the next one counted), the root entry is still
stored unchanged under `RootInodeID`, and the next id minted is greater than the root id and
than every key of the inode table. -/
theorem nextInodeID_never_reuses {H : Type} (env : Env H) (h : H) (srcPath : String)
    (reqs : List Request) (s1 : State H) (k : Nat)
    (hk : RootInodeID + k < uint64Size)
    (hrun : serveAll env (NewFileSystemServer h srcPath) reqs = Run.ret s1)
    (hcalls : s1.allocatedInodeId + 1 < uint64Size) :
    nextInodeIDs RootInodeID k = (List.range k).map (fun i => RootInodeID + (i + 1)) ∧
    (nextInodeIDs RootInodeID k).Pairwise (fun a b => a < b) ∧
    (∀ i ∈ nextInodeIDs RootInodeID k, RootInodeID < i) ∧
    s1.inodes RootInodeID = some { id := RootInodeID, path := srcPath } ∧
    RootInodeID < (nextInodeID s1.allocatedInodeId).1 ∧
    (∀ (j : Nat) (e : inodeEntry), s1.inodes j = some e →
      j < (nextInodeID s1.allocatedInodeId).1) := by
  have hids := nextInodeIDs_eq k RootInodeID hk
  have hinv : TableInv s1 :=
    serveAll_inv env reqs _ s1 (NewFileSystemServer_inv h srcPath) hrun (by omega)
  have hsrc : s1.srcPath = srcPath := (serveAll_mono env reqs _ s1 hrun).2
  have hnext : @Eq Nat (nextInodeID s1.allocatedInodeId).1 (s1.allocatedInodeId + 1) :=
    Nat.mod_eq_of_lt hcalls
  have hroot : (1 : Nat) ≤ s1.allocatedInodeId := (hinv.2 _ _ hinv.1).2.2
  refine ⟨hids, ?_, ?_, ?_, ?_, ?_⟩
  · rw [hids]
    refine List.Pairwise.map _ ?_ (List.pairwise_lt_range k)
    intro a b hab
    show (1 : Nat) + (a + 1) < 1 + (b + 1)
    omega
  · intro i hi
    rw [hids] at hi
    obtain ⟨a, _, rfl⟩ := List.mem_map.mp hi
    show (1 : Nat) < 1 + (a + 1)
    omega
  · rw [← hsrc]; exact hinv.1
  · show (1 : Nat) < (nextInodeID s1.allocatedInodeId).1
    omega
  · intro j e hj
    have := (hinv.2 j e hj).2.2
    omega

/-- The statement of `nextInodeID_never_reuses` for three calls and for the requests
`demoRequests` served on the concrete host. -/
theorem nextInodeID_never_reuses_witness :
    nextInodeIDs RootInodeID 3 = (List.range 3).map (fun i => RootInodeID + (i + 1)) ∧
    (nextInodeIDs RootInodeID 3).Pairwise (fun a b => a < b) ∧
    (∀ i ∈ nextInodeIDs RootInodeID 3, RootInodeID < i) ∧
    demoStateServed.inodes RootInodeID = some { id := RootInodeID, path := "/src" } ∧
    RootInodeID < (nextInodeID demoStateServed.allocatedInodeId).1 ∧
    (∀ (j : Nat) (e : inodeEntry), demoStateServed.inodes j = some e →
      j < (nextInodeID demoStateServed.allocatedInodeId).1) :=
  nextInodeID_never_reuses demoEnv demoHost "/src" demoRequests demoStateServed 3
    (by decide) rfl (by decide)

/-- An unknown id makes `getInodeById` panic, whatever the table. -/
theorem getInodeById_unknown (inodes : SyncMap) (parentId : InodeID)
    (h : inodes parentId = none) : getInodeById inodes parentId = Run.panic := by
  have hload : SyncMap.Load inodes parentId = none := h
  simp [getInodeById, hload]

/-- Two resolutions of the same name in a row, in any state whose keys are bounded by the
counter and with the backing directory unchanged, mint two ids one after the other. -/
theorem getOrCreateInode_twice {H : Type} (env : Env H) (s : State H) (parent : inodeEntry)
    (name : String) (entries : List FileInfo)
    (hparent : s.inodes parent.id = some parent)
    (hkeys : ∀ (k : Nat) e, s.inodes k = some e → k ≤ s.allocatedInodeId)
    (hcount : s.allocatedInodeId + 2 < uint64Size)
    (hdir : env.readDir s.host parent.path = .ok entries)
    (hname : ∃ f ∈ entries, f.name = name) :
    ∃ s1 s2,
      getOrCreateInode env s parent.id name =
        Run.ret ((some { id := s.allocatedInodeId + 1, path := env.join parent.path name },
          none), s1) ∧
      getOrCreateInode env s1 parent.id name =
        Run.ret ((some { id := s.allocatedInodeId + 2, path := env.join parent.path name },
          none), s2) := by
  have hidle : @LE.le Nat _ parent.id s.allocatedInodeId := hkeys _ _ hparent
  have h1 := getOrCreateInode_fresh env s parent name entries hparent hkeys (by omega) hdir hname
  have h2 := getOrCreateInode_fresh env
    { s with
        inodes := SyncMap.Store s.inodes (s.allocatedInodeId + 1)
          { id := s.allocatedInodeId + 1, path := env.join parent.path name }
        allocatedInodeId := s.allocatedInodeId + 1 }
    parent name entries
    (by
      simp only [SyncMap.Store]
      rw [if_neg (Nat.ne_of_lt (Nat.lt_succ_of_le hidle))]
      exact hparent)
    (by
      intro k e hk
      simp only [SyncMap.Store] at hk ⊢
      split at hk
      · rename_i hkeq
        have hk1 : k = s.allocatedInodeId + 1 := hkeq
        omega
      · have : k ≤ s.allocatedInodeId := hkeys k e hk
        omega)
    (by simp only; omega) hdir hname
  exact ⟨_, _, h1, h2⟩

/-- Claim C1 fails on the code: two successive resolutions of `a` under the root of the
concrete host, with the backing directory unchanged, return the ids 2 and 3, and the table
then holds two entries for the one path `/src/a`. -/
theorem getOrCreateInode_mints_again :
    ∃ s1 s2 : State DemoHost,
      getOrCreateInode demoEnv demoState RootInodeID "a"
        = Run.ret ((some { id := 2, path := "/src/a" }, none), s1) ∧
      s1.host = demoState.host ∧
      getOrCreateInode demoEnv s1 RootInodeID "a"
        = Run.ret ((some { id := 3, path := "/src/a" }, none), s2) ∧
      s2.inodes 2 = some { id := 2, path := "/src/a" } ∧
      s2.inodes 3 = some { id := 3, path := "/src/a" } :=
  ⟨_, _, rfl, rfl, rfl, by decide, by decide⟩

/-- Claim C2 fails on the code: on the concrete host `LookUpInode` returns the id 2 for `a`,
the following `Unlink` of `a` succeeds, and afterwards 2 is still a key of the table, so that
`GetInodeAttributes` on it returns `EIO` rather than `ENOENT`. -/
theorem Unlink_keeps_looked_up_id :
    ∃ (op1 : LookUpInodeOp) (s1 s2 : State DemoHost),
      LookUpInode demoEnv demoState
          { Parent := RootInodeID, Name := "a", Entry := ⟨0, noAttributes⟩ }
        = Run.ret ((none, op1), s1) ∧
      op1.Entry.Child = 2 ∧
      Unlink demoEnv s1 { Parent := RootInodeID, Name := "a" }
        = Run.ret ((none, { Parent := RootInodeID, Name := "a" }), s2) ∧
      s2.inodes 2 = some { id := 2, path := "/src/a" } ∧
      GetInodeAttributes demoEnv s2 { Inode := 2, Attributes := noAttributes }
        = Run.ret ((some EIO, { Inode := 2, Attributes := noAttributes }), s2) :=
  ⟨_, _, _, rfl, rfl, rfl, by decide, rfl⟩

/-- Claim C3 fails on the code: 7 is not a key of the table of the concrete host, and
`getInodeById`, `Rename` (with 7 as old or as new parent), `MkNode`, `Unlink` and
`LookUpInode` panic on it instead of returning `ENOENT`. -/
theorem unknown_parent_panics :
    demoState.inodes 7 = none ∧
    getInodeById demoState.inodes 7 = Run.panic ∧
    Rename demoEnv demoState
      { OldParent := 7, OldName := "a", NewParent := RootInodeID, NewName := "c" } = Run.panic ∧
    Rename demoEnv demoState
      { OldParent := RootInodeID, OldName := "a", NewParent := 7, NewName := "c" } = Run.panic ∧
    MkNode demoEnv demoState { Parent := 7, Name := "p", Mode := ModeNamedPipe ||| 0o644 }
      = Run.panic ∧
    Unlink demoEnv demoState { Parent := 7, Name := "a" } = Run.panic ∧
    LookUpInode demoEnv demoState { Parent := 7, Name := "a", Entry := ⟨0, noAttributes⟩ }
      = Run.panic :=
  ⟨rfl, rfl, rfl, rfl, rfl, rfl, rfl⟩

/-- Claim C10 fails on the code: `syscallMakeDev` returns 0 whenever the stat succeeds, and on
the concrete host, where the parent `/src/sda` (id 2) has the device number `0x800` and
`Makedev(Major(0x800), Minor(0x800))` is `0x800`, `MkNode` calls `mknod` with the device
number 0. -/
theorem MkNode_drops_device_number :
    (∀ {H : Type} (env : Env H) (h : H) (path : String),
      syscallMakeDev env h path = (0, none) ∨
        ∃ err, syscallMakeDev env h path = (-1, some err)) ∧
    ∃ (op1 : LookUpInodeOp) (s1 s2 : State DemoHost) (st : Stat_t),
      LookUpInode demoEnv demoState
          { Parent := RootInodeID, Name := "sda", Entry := ⟨0, noAttributes⟩ }
        = Run.ret ((none, op1), s1) ∧
      op1.Entry.Child = 2 ∧
      demoEnv.syscallStat s1.host "/src/sda" = .ok st ∧ st.Rdev = 0x800 ∧
      demoEnv.makedev (demoEnv.major st.Rdev) (demoEnv.minor st.Rdev) = 0x800 ∧
      MkNode demoEnv s1 { Parent := 2, Name := "x", Mode := ModeDevice ||| 0o600 }
        = Run.ret ((none, { Parent := 2, Name := "x", Mode := ModeDevice ||| 0o600 }), s2) ∧
      s2.host.mknodCalls = [("/src/sda/x", 0o600 ||| S_IFBLK, 0)] := by
  refine ⟨?_, _, _, _, _, rfl, rfl, rfl, rfl, by decide, rfl, by decide⟩
  intro H env h path
  unfold syscallMakeDev
  cases hst : env.syscallStat h path with
  | error e => exact Or.inr ⟨e, rfl⟩
  | ok st => exact Or.inl rfl

end Loopbackfs
